import Mathlib

set_option maxHeartbeats 1600000

/-!
A verification development for the add/resolve pipeline of
`src/consumer/component-ops/add-components/add-components.js`.

The pipeline class `AddComponents` and its helpers are embedded as pure
Lean functions.  External collaborators — the filesystem, glob expansion,
DSL formatting, the consumer/workspace context and the tracking index
("bit-map") — are out of scope of the core and are modelled at their
interface boundary: filesystem and glob primitives become function-valued
fields of the embedded `AddComponents` record, and the tracking-index
operations are modelled from the documented interface as list operations.
Effectful code (mutation of `this.warnings`, of `this.bitMap`, of file
arrays) becomes explicit state passing; fallible code returns
`Except AddError`.
-/

deriving instance DecidableEq for Except

namespace BitAdd

/-- Split a character list at a separator character. -/
def splitOnCharList (sep : Char) : List Char → List (List Char)
  | [] => [[]]
  | c :: rest =>
    if c = sep then [] :: splitOnCharList sep rest
    else
      match splitOnCharList sep rest with
      | [] => [[c]]
      | g :: gs => (c :: g) :: gs

/-- Split a string at a separator character (the string splits performed by
the source all use single-character separators). -/
def strSplit (sep : Char) (s : String) : List String :=
  (splitOnCharList sep s.toList).map (fun l => String.mk l)

/-- Join strings with a separator. -/
def joinSep (sep : String) : List String → String
  | [] => ""
  | [x] => x
  | x :: xs => x ++ sep ++ joinSep sep xs

/-- Replace backslashes by forward slashes; models `pathNormalizeToLinux`
from the external utils module. -/
def pathNormalizeToLinux (p : String) : String :=
  String.mk (p.toList.map (fun c => if c = '\\' then '/' else c))

/-- Last path segment; models the external `path.basename`. -/
def basename (p : String) : String :=
  (strSplit '/' (pathNormalizeToLinux p)).getLastD p

/-- Models the external `path.join` on two segments. -/
def pathJoin (a b : String) : String :=
  if a = "" then b else a ++ "/" ++ b

/-- Models `pathJoinLinux` from the external utils module. -/
def pathJoinLinux (a b : String) : String := pathJoin a b

/-- First-occurrence deduplication, with the already-seen elements as an
accumulator. -/
def dedupFirstAux {α : Type} [DecidableEq α] : List α → List α → List α
  | _, [] => []
  | seen, x :: xs =>
    if x ∈ seen then dedupFirstAux seen xs
    else x :: dedupFirstAux (x :: seen) xs

/-- First-occurrence deduplication; models `R.uniq` and the collapsing of
duplicate object keys. -/
def dedupFirst {α : Type} [DecidableEq α] (l : List α) : List α :=
  dedupFirstAux [] l

/-- Component origin tags (`COMPONENT_ORIGINS`). -/
inductive Origin where
  | authored
  | imported
  | nested
deriving DecidableEq

/-- A structured component identity (the `BitId` data model of the
external bit-id module): optional scope, optional namespace (`box`),
required name, optional version. -/
structure BitId where
  scope : Option String
  box : Option String
  name : String
  version : Option String
deriving DecidableEq

/-- Models `BitId#toStringWithoutVersion`. -/
def BitId.toStringWithoutVersion (i : BitId) : String :=
  (match i.scope with | some s => s ++ "/" | none => "") ++
  (match i.box with | some b => b ++ "/" | none => "") ++ i.name

/-- Models `BitId#toString` (the string the JS runtime uses when an id is
coerced to an object key). -/
def BitId.toStringFull (i : BitId) : String :=
  i.toStringWithoutVersion ++ (match i.version with | some v => "@" ++ v | none => "")

/-- Bare equality: equality ignoring scope and version
(`isEqualWithoutScopeAndVersion`). -/
def BitId.bareEqual (a b : BitId) : Bool :=
  decide (a.box = b.box) && decide (a.name = b.name)

/-- Models `BitId#hasVersion`. -/
def BitId.hasVersion (i : BitId) : Bool := i.version.isSome

/-- The `VERSION_DELIMITER` constant. -/
def versionDelim : Char := '@'

/-- `currentId.includes(VERSION_DELIMITER)`: whether a string contains the
version delimiter. -/
def containsVersionDelimiter (s : String) : Bool :=
  s.toList.any (fun c => decide (c = versionDelim))

/-- Modelled from the spec (§4.4): parse a candidate identity string into a
fresh identity without scope or version (the bit-id module is not under
`src/`; the spec fixes this behaviour). -/
def BitId.parseStr (s : String) : BitId :=
  let core := (strSplit '@' s).headD s
  match strSplit '/' core with
  | [] => { scope := none, box := none, name := "", version := none }
  | [n] => { scope := none, box := none, name := n, version := none }
  | b :: rest =>
    { scope := none, box := some b, name := joinSep "/" rest, version := none }

/-- Modelled from the spec (§4.4): `BitId.getValidBitId(namespace, name)`
builds a candidate identity from path segments. -/
def BitId.getValidBitId (box : Option String) (name : String) : BitId :=
  { scope := none, box := box, name := name, version := none }

/-- Modelled from the bit-id interface: `getVersionOnlyFromString` extracts
the version suffix after the first delimiter; on a missing user id it
yields nothing (the JS value `undefined`). -/
def getVersionOnlyFromOptString : Option String → Option String
  | none => none
  | some s =>
    match strSplit '@' s with
    | _ :: v :: _ => some v
    | _ => none

/-- A file record inside a component (`ComponentMapFile`). -/
structure ComponentMapFile where
  relativePath : String
  test : Bool
  name : String
deriving DecidableEq

/-- A tracked-component record of the tracking index, at the interface
granularity the pipeline reads (identity, origin tag, root directory,
owned files). -/
structure BitMapEntry where
  id : BitId
  origin : Origin
  rootDir : String
  files : List ComponentMapFile
deriving DecidableEq

/-- The tracking index ("bit-map"), modelled as its list of records. -/
abbrev BitMap := List BitMapEntry

/-- Modelled from the spec (§6): look up a tracked component whose identity
bare-matches the given one (`getComponentIfExist` with
`ignoreScopeAndVersion: true`). -/
def BitMap.getComponentIfExist (bm : BitMap) (cid : BitId) : Option BitMapEntry :=
  bm.find? (fun e => e.id.bareEqual cid)

/-- Modelled from the spec (§6): look up a tracked component by exact
identity (`getComponent`). -/
def BitMap.getComponent (bm : BitMap) (cid : BitId) : Option BitMapEntry :=
  bm.find? (fun e => decide (e.id = cid))

/-- Modelled from the spec (§6): `getComponentIdByPath` — the identity that
owns a file path (the real index additionally supports case-insensitive
matching, an external concern). -/
def BitMap.getComponentIdByPath (bm : BitMap) (p : String) : Option BitId :=
  (bm.find? (fun e => e.files.any (fun f => decide (f.relativePath = p)))).map (fun e => e.id)

/-- Modelled from the spec (§4.4): look up an existing bare-matching
identity for a candidate identity string (`getExistingBitId`). -/
def BitMap.getExistingBitId (bm : BitMap) (s : String) : Option BitId :=
  (bm.find? (fun e => e.id.bareEqual (BitId.parseStr s))).map (fun e => e.id)

/-- The warnings accumulator: a map from an owning identity string to the
conflicting relative paths recorded under it. -/
abbrev Warnings := List (String × List String)

/-- Append a conflicting path under an owner key, mirroring
`if (this.warnings[k]) push else init`. -/
def warningsAdd (w : Warnings) (key p : String) : Warnings :=
  if w.any (fun kv => decide (kv.1 = key)) then
    w.map (fun kv => if kv.1 = key then (kv.1, kv.2 ++ [p]) else kv)
  else w ++ [(key, [p])]

/-- Read the paths recorded under an owner key. -/
def warningsGet (w : Warnings) (key : String) : List String :=
  ((w.find? (fun kv => decide (kv.1 = key))).map (fun kv => kv.2)).getD []

/-- The per-component result of path resolution (`AddedComponent`).  The
identity is optional exactly as in the Flow source, where `finalBitId`
starts out unset. -/
structure AddedComponent where
  componentId : Option BitId
  files : List ComponentMapFile
  mainFile : Option String
  trackDir : Option String
deriving DecidableEq

/-- The error taxonomy of the pipeline (the exception classes thrown by
`add-components.js`), as a tagged result type. -/
inductive AddError where
  | pathsNotExist (paths : List String)
  | noFiles (diff : List String)
  | emptyDirectory
  | duplicateIds (groups : List (String × List AddedComponent))
  | missingComponentIdForImportedComponent (id : String)
  | incorrectIdForImportedComponent (existingId userId filePath : String)
  | versionShouldBeRemoved (id : Option String)
  | excludedMainFile (mainFile : String)
  | mainFileIsDir (mainFile : String)
  | testIsDirectory (testFile : String)
  | generalError (msg : String)
deriving DecidableEq

/-- One entry of the `addedComponents` result (`AddResult`). -/
structure AddResult where
  id : String
  files : List ComponentMapFile
deriving DecidableEq

/-- The record handed to the tracking index's insert/merge operation by
`addToBitMap`. -/
structure AddComponentRecord where
  componentId : Option BitId
  files : List ComponentMapFile
  mainFile : Option String
  trackDir : Option String
  origin : Origin
  override : Bool
deriving DecidableEq

/-- A write issued against the tracking index: either the
track-directory-feature `addFilesToComponent` call or the full
`addComponent` call. -/
inductive BitMapWrite where
  | addFiles (componentId : Option BitId) (files : List ComponentMapFile)
  | addComp (record : AddComponentRecord)
deriving DecidableEq

/-- The files carried by a tracking-index write. -/
def writeFiles : BitMapWrite → List ComponentMapFile
  | .addFiles _ fs => fs
  | .addComp r => r.files

/-- The origin tag carried by a tracking-index write (the files-only write
carries none). -/
def writeOrigin : BitMapWrite → Option Origin
  | .addFiles _ _ => none
  | .addComp r => some r.origin

/-- Coercion of a possibly-unset identity to a concrete identity, mirroring
the JS string coercion of `undefined`. -/
def orUndefinedId : Option BitId → BitId
  | some i => i
  | none => { scope := none, box := none, name := "undefined", version := none }

/-- Models lodash `unionBy(as, bs, 'relativePath')`: concatenation keeping,
per relative path, only the first occurrence. -/
def unionByRelativePath (as bs : List ComponentMapFile) : List ComponentMapFile :=
  (as ++ bs).foldl
    (fun acc f =>
      if acc.any (fun g => decide (g.relativePath = f.relativePath)) then acc else acc ++ [f])
    []

/-- Modelled from the spec (§6): `insertOrMergeComponent` — insert a new
record or merge/override the files of the bare-matching record. -/
def BitMap.addComponentRec (bm : BitMap) (r : AddComponentRecord) : BitMap × BitMapEntry :=
  let cid := orUndefinedId r.componentId
  match bm.find? (fun e => e.id.bareEqual cid) with
  | some e =>
    let newFiles := if r.override then r.files else unionByRelativePath r.files e.files
    let e2 : BitMapEntry := { e with id := cid, origin := r.origin, files := newFiles }
    (bm.map (fun x => if x.id.bareEqual cid then e2 else x), e2)
  | none =>
    let e2 : BitMapEntry := { id := cid, origin := r.origin, rootDir := "", files := r.files }
    (bm ++ [e2], e2)

/-- Modelled from the spec (§6): `insertFilesOnly` — the
track-directory-feature write (`addFilesToComponent`). -/
def BitMap.addFilesToComponentRec (bm : BitMap) (cid? : Option BitId)
    (files : List ComponentMapFile) : BitMap × BitMapEntry :=
  let cid := orUndefinedId cid?
  match bm.find? (fun e => e.id.bareEqual cid) with
  | some e =>
    let e2 : BitMapEntry := { e with files := unionByRelativePath files e.files }
    (bm.map (fun x => if x.id.bareEqual cid then e2 else x), e2)
  | none =>
    let e2 : BitMapEntry := { id := cid, origin := Origin.authored, rootDir := "", files := files }
    (bm ++ [e2], e2)

/-- Opening-brace character, kept as a code point. -/
def openBraceChar : Char := Char.ofNat 123

/-- Closing-brace character, kept as a code point. -/
def closeBraceChar : Char := Char.ofNat 125

/-- Whether a closing brace occurs anywhere in the remaining characters. -/
def dslCloseAhead : List Char → Bool
  | [] => false
  | c :: rest => if c = closeBraceChar then true else dslCloseAhead rest

/-- Whether the character list matches `REGEX_DSL_PATTERN`
(an opening brace, one or more non-closing-brace characters, a closing
brace). -/
def containsDslPattern : List Char → Bool
  | [] => false
  | a :: rest =>
    if a = openBraceChar then
      (match rest with
       | [] => false
       | c :: _ => decide (c ≠ closeBraceChar) && dslCloseAhead rest) || containsDslPattern rest
    else containsDslPattern rest

/-- The embedded `AddComponents` class: the per-invocation request fields
after constructor normalization, plus its external collaborators (spec §6)
as function-valued interface fields.  `gitIgnore` is the ignore matcher
built at the start of `add()`; `globPattern`, `globDir`, `dslFormat`,
`existsFs`, `isDirFs`, `relToConsumer`, `toAbsolutePath`, `resolvePath`,
`normalizePath`, `getMissingTestFiles`, `isAutoGen`,
`isSupportedExtension` and `depSourcePaths` model the filesystem, glob,
path, link-content and model-loading utilities the pipeline calls. -/
structure AddComponents where
  componentPaths : List String
  id : Option String
  main : Option String
  nspace : Option String
  tests : List String
  exclude : List String
  override : Bool
  trackDirFeature : Bool
  origin : Origin
  consumerPath : String
  gitIgnore : String → Bool
  existsFs : String → Bool
  isDirFs : String → Bool
  globPattern : String → List String
  globDir : String → List String
  dslFormat : String → String → String
  relToConsumer : String → String
  toAbsolutePath : String → String
  resolvePath : String → String
  normalizePath : String → String
  getMissingTestFiles : List String → List String
  isAutoGen : String → Bool
  isSupportedExtension : String → Bool
  depSourcePaths : BitId → List String

/-- `getFilesAccordingToDsl(files, filesWithPotentialDsl)`: expand each
template against each file, glob-resolve, keep matches that pass the
ignore matcher and exist on disk, deduplicate, and convert to
consumer-relative forward-slash form. -/
def getFilesAccordingToDsl (ctx : AddComponents) (files dsls : List String) : List String :=
  let all := dsls.flatMap (fun dsl =>
    files.flatMap (fun file =>
      let generatedFile := ctx.dslFormat dsl file
      let globMatches := ctx.globPattern generatedFile
      (globMatches.filter (fun m => !(ctx.gitIgnore m))).filter (fun m => ctx.existsFs m)))
  (dedupFirst all).map (fun f => pathNormalizeToLinux (ctx.relToConsumer f))

/-- `validatePaths` inner loop: record `{isDir}` per path, failing on a
path that does not exist. -/
def validatePathsLoop (ctx : AddComponents) :
    List (String × Bool) → List String → Except AddError (List (String × Bool))
  | acc, [] => .ok acc
  | acc, p :: rest =>
    if ctx.existsFs p then
      validatePathsLoop ctx
        (if acc.any (fun kv => decide (kv.1 = p)) then
          acc.map (fun kv => if kv.1 = p then (p, ctx.isDirFs p) else kv)
         else acc ++ [(p, ctx.isDirFs p)]) rest
    else .error (.pathsNotExist [p])

/-- `validatePaths(fileArray)`: validate that the paths entered by the user
exist, producing the per-path `{isDir}` stats map (an insertion-ordered
key-value list, duplicate keys collapsed). -/
def validatePaths (ctx : AddComponents) (fileArray : List String) :
    Except AddError (List (String × Bool)) :=
  validatePathsLoop ctx [] fileArray

/-- The object key a component contributes to lodash `groupby(_,
'componentId')`: the identity coerced to a string. -/
def componentIdKey (c : AddedComponent) : String :=
  ((c.componentId.map BitId.toStringFull).getD "undefined")

/-- `validateNoDuplicateIds(addComponents)`: group by identity string and
fail with `DuplicateIds` when any group has more than one member. -/
def validateNoDuplicateIds (added : List AddedComponent) : Except AddError Unit :=
  let keys := dedupFirst (added.map componentIdKey)
  let dups := keys.filterMap (fun k =>
    let g := added.filter (fun c => decide (componentIdKey c = k))
    if g.length > 1 then some (k, g) else none)
  if dups.isEmpty then .ok () else .error (.duplicateIds dups)

/-- `_getIdAccordingToExistingComponent(currentId)`: reuse the identity
recorded in the tracking index when one bare-matches; reject collisions
with nested dependencies and illegal version suffixes. -/
def getIdAccordingToExistingComponent (ctx : AddComponents) (bm : BitMap)
    (currentId : String) : Except AddError BitId :=
  let existingComponentId := BitMap.getExistingBitId bm currentId
  if existingComponentId.isSome &&
      decide (((existingComponentId.bind (fun e => BitMap.getComponent bm e)).map
        (fun e => e.origin)) = some Origin.nested) then
    .error (.generalError ((existingComponentId.map BitId.toStringFull).getD ""))
  else if containsVersionDelimiter currentId &&
      (existingComponentId.isNone ||
       !((existingComponentId.map BitId.hasVersion).getD false) ||
       decide ((existingComponentId.bind (fun e => e.version)) ≠
         getVersionOnlyFromOptString ctx.id)) then
    .error (.versionShouldBeRemoved ctx.id)
  else
    .ok (existingComponentId.getD (BitId.parseStr currentId))

/-- `_isGeneratedForUnsupportedFiles(fileRelativePath, componentId,
componentMap)`: whether a file is the auto-generated placeholder for an
unsupported (non-source) dependency file.  The dependency source paths of
the component model are read through the `depSourcePaths` interface
field. -/
def isGeneratedForUnsupportedFiles (ctx : AddComponents) (fileRelativePath : String)
    (cid? : Option BitId) (componentMap : Option BitMapEntry) : Bool :=
  if ctx.isSupportedExtension fileRelativePath then false
  else
    let sourcePaths := ctx.depSourcePaths (orUndefinedId cid?)
    let rootDir := (componentMap.map (fun e => e.rootDir)).getD ""
    (sourcePaths.map (fun sp => pathJoinLinux rootDir sp)).any
      (fun sp => decide (sp = fileRelativePath))

/-- The identity recorded in the tracking index as owning a file. -/
def fileOwner (bm : BitMap) (f : ComponentMapFile) : Option BitId :=
  BitMap.getComponentIdByPath bm f.relativePath

/-- `idOfFileIsDifferent`: the file has an owner and it is not (fully)
equal to the identity being added. -/
def fileOwnerDiffers (bm : BitMap) (cid? : Option BitId) (f : ComponentMapFile) : Bool :=
  match fileOwner bm f, cid? with
  | some o, some cid => !(decide (o = cid))
  | some _, none => true
  | none, _ => false

/-- The `isImported` test of `addOrUpdateComponentInBitMap`, restricted to
files that are not auto-generated (those are dropped first): the target
component is imported-origin, or the file's owner is imported-origin. -/
def importedFileCase (ctx : AddComponents) (bm : BitMap)
    (found : Option BitMapEntry) (f : ComponentMapFile) : Bool :=
  !(ctx.isAutoGen (pathJoin ctx.consumerPath f.relativePath)) &&
  (decide ((found.map (fun e => e.origin)) = some Origin.imported) ||
   decide ((((fileOwner bm f).bind (fun o => BitMap.getComponent bm o)).map
     (fun e => e.origin)) = some Origin.imported))

/-- The per-file step of `addOrUpdateComponentInBitMap`: either keep the
file, drop it (auto-generated, placeholder, or conflict-warned), or fail
(imported-origin identity checks).  The returned flag records whether the
imported branch reached `delete component.trackDir`. -/
def processComponentFile (ctx : AddComponents) (bm : BitMap) (cid? : Option BitId)
    (found : Option BitMapEntry) (w : Warnings) (file : ComponentMapFile) :
    Except AddError (Option ComponentMapFile × Warnings × Bool) :=
  if ctx.isAutoGen (pathJoin ctx.consumerPath file.relativePath) then .ok (none, w, false)
  else
    if decide ((found.map (fun e => e.origin)) = some Origin.imported) ||
        decide ((((fileOwner bm file).bind (fun o => BitMap.getComponent bm o)).map
          (fun e => e.origin)) = some Origin.imported) then
      match ctx.id with
      | none =>
        .error (.missingComponentIdForImportedComponent
          ((cid?.map BitId.toStringWithoutVersion).getD "undefined"))
      | some userId =>
        if fileOwnerDiffers bm cid? file then
          .error (.incorrectIdForImportedComponent
            (((fileOwner bm file).map BitId.toStringWithoutVersion).getD "undefined")
            userId file.relativePath)
        else if isGeneratedForUnsupportedFiles ctx file.relativePath cid? found then
          .ok (none, w, false)
        else .ok (some file, w, true)
    else if fileOwnerDiffers bm cid? file then
      .ok (none,
        warningsAdd w (((fileOwner bm file).map BitId.toStringFull).getD "undefined")
          file.relativePath,
        false)
    else .ok (some file, w, false)

/-- Sequential processing of a component's file list (the `Promise.all`
over `componentFilesP` followed by the null filter). -/
def processFiles (ctx : AddComponents) (bm : BitMap) (cid? : Option BitId)
    (found : Option BitMapEntry) :
    Warnings → List ComponentMapFile →
    Except AddError (List ComponentMapFile × Warnings × Bool)
  | w, [] => .ok ([], w, false)
  | w, f :: rest =>
    match processComponentFile ctx bm cid? found w f with
    | .error e => .error e
    | .ok (keep, w1, del) =>
      match processFiles ctx bm cid? found w1 rest with
      | .error e => .error e
      | .ok (ks, w2, del2) =>
        .ok ((match keep with | some k => k :: ks | none => ks), w2, del || del2)

/-- `addToBitMap(component)`: issue the tracking-index write (files-only
under the track-directory feature, full insert/merge otherwise) and build
the `AddResult`.  Returns the write, the updated index and the result. -/
def addToBitMap (ctx : AddComponents) (bm : BitMap) (c : AddedComponent) :
    BitMapWrite × BitMap × AddResult :=
  if ctx.trackDirFeature then
    let pair := BitMap.addFilesToComponentRec bm c.componentId c.files
    (.addFiles c.componentId c.files, pair.1,
      { id := (orUndefinedId c.componentId).toStringFull, files := pair.2.files })
  else
    let r : AddComponentRecord :=
      { componentId := c.componentId, files := c.files, mainFile := c.mainFile,
        trackDir := c.trackDir, origin := Origin.authored, override := ctx.override }
    let pair := BitMap.addComponentRec bm r
    (.addComp r, pair.1,
      { id := (orUndefinedId c.componentId).toStringFull, files := pair.2.files })

/-- `addOrUpdateComponentInBitMap(component)`: filter the component's files
against the tracking index (auto-generated drops, imported-origin checks,
conflict warnings); drop the component when no file survives, otherwise
write it.  Returns the optional result, warnings, the updated index, and
the writes issued. -/
def addOrUpdateComponentInBitMap (ctx : AddComponents) (bm : BitMap) (w : Warnings)
    (component : AddedComponent) :
    Except AddError (Option AddResult × Warnings × BitMap × List BitMapWrite) :=
  let found := component.componentId.bind (fun cid => BitMap.getComponentIfExist bm cid)
  match processFiles ctx bm component.componentId found w component.files with
  | .error e => .error e
  | .ok (componentFiles, w1, delTrack) =>
    if componentFiles.isEmpty then .ok (none, w1, bm, [])
    else
      let comp2 : AddedComponent :=
        { component with
          files := componentFiles
          trackDir := if delTrack then none else component.trackDir }
      let out := addToBitMap ctx bm comp2
      .ok (some out.2.2, w1, out.2.1, [out.1])

/-- The per-component transform of `removeExcludedFiles`: empty the whole
file set when the (normalized) main file is excluded, otherwise filter
the excluded paths out. -/
def removeExcludedOne (excluded : List String) (c : AddedComponent) : AddedComponent :=
  let mainFile := c.mainFile.map pathNormalizeToLinux
  if (match mainFile with
      | some m => excluded.any (fun e => decide (e = m))
      | none => false) then
    { c with files := [] }
  else
    { c with files :=
        c.files.filter (fun k => !(excluded.any (fun e => decide (e = k.relativePath)))) }

/-- `removeExcludedFiles(componentsWithFiles)` given the already-resolved
excluded file list. -/
def removeExcludedFilesPure (excluded : List String) (comps : List AddedComponent) :
    List AddedComponent :=
  comps.map (removeExcludedOne excluded)

/-- The resolved excluded file list computed inside `removeExcludedFiles`:
the exclude templates resolved against all files of all components. -/
def resolvedExcludedOf (ctx : AddComponents) (comps : List AddedComponent) : List String :=
  getFilesAccordingToDsl ctx
    (comps.flatMap (fun x => x.files.map (fun i => i.relativePath))) ctx.exclude

/-- One step of the DSL main-file loop in `_addMainFileToFiles`: expand the
template for one file, prefer an already-listed match, otherwise push an
existing non-ignored generated file. -/
def mainFileDslStep (ctx : AddComponents) (st : String × List ComponentMapFile)
    (file : ComponentMapFile) : Except AddError (String × List ComponentMapFile) :=
  let mainFile := st.1
  let files := st.2
  let generatedFile := ctx.dslFormat mainFile file.relativePath
  match files.find? (fun f => decide (f.relativePath = pathNormalizeToLinux generatedFile)) with
  | some ff => .ok (ff.relativePath, files)
  | none =>
    if ctx.existsFs generatedFile then
      if ctx.gitIgnore generatedFile then .error (.excludedMainFile generatedFile)
      else
        .ok (generatedFile,
          files ++ [{ relativePath := pathNormalizeToLinux generatedFile, test := false,
                      name := basename generatedFile }])
    else .ok (mainFile, files)

/-- Fold of `mainFileDslStep` over the original file list (JS `forEach`
does not visit elements appended during the iteration, while the inner
lookup sees the live array). -/
def mainFileDslLoop (ctx : AddComponents) :
    (String × List ComponentMapFile) → List ComponentMapFile →
    Except AddError (String × List ComponentMapFile)
  | st, [] => .ok st
  | st, f :: rest =>
    match mainFileDslStep ctx st f with
    | .error e => .error e
    | .ok st2 => mainFileDslLoop ctx st2 rest

/-- The DSL phase of `_addMainFileToFiles`: run the template loop when the
main file is a DSL, otherwise pass the main file through unchanged. -/
def mainFileDslPhase (ctx : AddComponents) (files0 : List ComponentMapFile) :
    Except AddError (Option String × List ComponentMapFile) :=
  match ctx.main with
  | none => .ok (none, files0)
  | some m =>
    if containsDslPattern m.toList then
      match mainFileDslLoop ctx (m, files0) files0 with
      | .error e => .error e
      | .ok st => .ok (some st.1, st.2)
    else .ok (some m, files0)

/-- The final phase of `_addMainFileToFiles`: when the resolved main path
exists it must pass the ignore matcher and must not be a directory, and is
appended to the file list when missing; when it does not exist it is
returned unchanged. -/
def mainFileFinalize (ctx : AddComponents) (mainFile? : Option String)
    (files1 : List ComponentMapFile) :
    Except AddError (Option String × List ComponentMapFile) :=
  match mainFile? with
  | none => .ok (none, files1)
  | some mainFile =>
    let mainFileRel := ctx.relToConsumer mainFile
    let mainPath := ctx.toAbsolutePath mainFileRel
    if ctx.existsFs mainPath then
      if ctx.gitIgnore mainFileRel then .error (.excludedMainFile mainFileRel)
      else if ctx.isDirFs mainPath then .error (.mainFileIsDir mainPath)
      else
        let files2 :=
          if (files1.find? (fun f =>
                decide (f.relativePath = pathNormalizeToLinux mainFileRel))).isSome then
            files1
          else
            files1 ++ [{ relativePath := pathNormalizeToLinux mainFileRel, test := false,
                         name := basename mainFileRel }]
        .ok (some mainFileRel, files2)
    else .ok (some mainFile, files1)

/-- `_addMainFileToFiles(files)`: resolve the main file (literal or DSL)
and update the file list. -/
def addMainFileToFiles (ctx : AddComponents) (files0 : List ComponentMapFile) :
    Except AddError (Option String × List ComponentMapFile) :=
  match mainFileDslPhase ctx files0 with
  | .error e => .error e
  | .ok st => mainFileFinalize ctx st.1 st.2

/-- The mapping step over resolved test files in `_mergeTestFilesWithFiles`:
reject directories (first offender, in order), build test file records. -/
def resolveTestFilesLoop (ctx : AddComponents) :
    List String → Except AddError (List ComponentMapFile)
  | [] => .ok []
  | tf :: rest =>
    if ctx.isDirFs (pathJoin ctx.consumerPath tf) then .error (.testIsDirectory tf)
    else
      match resolveTestFilesLoop ctx rest with
      | .error e => .error e
      | .ok rs =>
        .ok (({ relativePath := tf, test := true, name := basename tf } :
          ComponentMapFile) :: rs)

/-- `_mergeTestFilesWithFiles(files)`: resolve the test templates, reject
test directories, and union the resolved test files with the files. -/
def mergeTestFilesWithFiles (ctx : AddComponents) (files : List ComponentMapFile) :
    Except AddError (List ComponentMapFile) :=
  let testFiles :=
    if ctx.tests.isEmpty then []
    else getFilesAccordingToDsl ctx (files.map (fun f => f.relativePath)) ctx.tests
  match resolveTestFilesLoop ctx testFiles with
  | .error e => .error e
  | .ok resolvedTestFiles => .ok (unionByRelativePath resolvedTestFiles files)

/-- Directory part of a parsed path (`path.parse(p).dir`). -/
def parseDirOf (p : String) : String :=
  joinSep "/" (strSplit '/' p).dropLast

/-- Name-without-extension part of a parsed path (`path.parse(p).name`):
the base name stripped of its last extension, where a leading dot alone
does not start an extension. -/
def parseNameOf (p : String) : String :=
  let base := (strSplit '/' p).getLastD p
  let parts := strSplit '.' base
  match parts with
  | [] => base
  | [n] => n
  | first :: _ =>
    if first = "" && parts.length = 2 then base
    else joinSep "." parts.dropLast

/-- Identity derivation for a directory path: namespace is the override or
the parent-of-leaf segment, name is the directory leaf; the candidate is
then reconciled against the tracking index. -/
def deriveDirId (ctx : AddComponents) (bm : BitMap) (componentPath : String) :
    Except AddError BitId :=
  let absoluteComponentPath := ctx.resolvePath componentPath
  let splitPath := strSplit '/' absoluteComponentPath
  let lastDir := splitPath.getLastD ""
  let nameSpaceOrDir :=
    match ctx.nspace with
    | some ns => some ns
    | none => if splitPath.length ≥ 2 then splitPath.get? (splitPath.length - 2) else none
  getIdAccordingToExistingComponent ctx bm
    ((BitId.getValidBitId nameSpaceOrDir lastDir).toStringFull)

/-- Identity derivation for a file path: namespace is the override or the
parent-directory leaf, name is the file name without extension; the
candidate is then reconciled against the tracking index.  (`pathParsed.dir`
of a resolved absolute path is never empty, so the `path.dirname` fallback
of the source collapses into the same value.) -/
def deriveFileId (ctx : AddComponents) (bm : BitMap) (componentPath : String) :
    Except AddError BitId :=
  let absolutePath := ctx.resolvePath componentPath
  let dirName := parseDirOf absolutePath
  let nameSpaceOrLastDir :=
    match ctx.nspace with
    | some ns => some ns
    | none => (strSplit '/' dirName).getLast?
  getIdAccordingToExistingComponent ctx bm
    ((BitId.getValidBitId nameSpaceOrLastDir (parseNameOf absolutePath)).toStringFull)

/-- Per-path resolution inside `addOneComponent`: directory paths are
recursively enumerated (ignore-filtered, failing on an empty remainder),
file paths contribute themselves; test files are merged in and the main
file resolved; the identity is derived only when not already fixed.
Returns the (possibly newly fixed) identity together with the resolved
component of this path. -/
def addOnePath (ctx : AddComponents) (bm : BitMap) (fid0 : Option BitId) (numPaths : Nat)
    (p : String × Bool) : Except AddError (Option BitId × AddedComponent) :=
  if p.2 then
    let relativeComponentPath := ctx.relToConsumer p.1
    let globMatches := ctx.globDir relativeComponentPath
    let filteredMatches := globMatches.filter (fun m => !(ctx.gitIgnore m))
    if filteredMatches.isEmpty then .error .emptyDirectory
    else
      let files0 := filteredMatches.map (fun m =>
        ({ relativePath := pathNormalizeToLinux m, test := false, name := basename m } :
          ComponentMapFile))
      match mergeTestFilesWithFiles ctx files0 with
      | .error e => .error e
      | .ok files1 =>
        match addMainFileToFiles ctx files1 with
        | .error e => .error e
        | .ok st =>
          let fidE : Except AddError (Option BitId) :=
            match fid0 with
            | some i => .ok (some i)
            | none =>
              match deriveDirId ctx bm p.1 with
              | .error e => .error e
              | .ok r => .ok (some r)
          match fidE with
          | .error e => .error e
          | .ok fid =>
            let trackDir :=
              if numPaths = 1 && ctx.exclude.isEmpty && decide (ctx.origin = Origin.authored)
              then some relativeComponentPath else none
            .ok (fid,
              { componentId := fid, files := st.2, mainFile := st.1, trackDir := trackDir })
  else
    let fidE : Except AddError (Option BitId) :=
      match fid0 with
      | some i => .ok (some i)
      | none =>
        match deriveFileId ctx bm p.1 with
        | .error e => .error e
        | .ok r => .ok (some r)
    match fidE with
    | .error e => .error e
    | .ok fid =>
      let relativeFilePath := ctx.relToConsumer p.1
      let files0 : List ComponentMapFile :=
        [{ relativePath := pathNormalizeToLinux relativeFilePath, test := false,
           name := basename relativeFilePath }]
      match mergeTestFilesWithFiles ctx files0 with
      | .error e => .error e
      | .ok files1 =>
        match addMainFileToFiles ctx files1 with
        | .error e => .error e
        | .ok st =>
          .ok (fid, { componentId := fid, files := st.2, mainFile := st.1, trackDir := none })

/-- Sequential resolution of all paths of one component, threading the
first successfully derived identity (the source's mutable `finalBitId`). -/
def addPathsLoop (ctx : AddComponents) (bm : BitMap) (n : Nat) :
    Option BitId → List (String × Bool) → Except AddError (Option BitId × List AddedComponent)
  | fid, [] => .ok (fid, [])
  | fid, p :: rest =>
    match addOnePath ctx bm fid n p with
    | .error e => .error e
    | .ok (fid2, c) =>
      match addPathsLoop ctx bm n fid2 rest with
      | .error e => .error e
      | .ok (fid3, cs) => .ok (fid3, c :: cs)

/-- The per-path phase of `addOneComponent`: fix the identity from the
explicit user id when given, then resolve every path. -/
def addOneComponentParts (ctx : AddComponents) (bm : BitMap) (stats : List (String × Bool)) :
    Except AddError (Option BitId × List AddedComponent) :=
  match ctx.id with
  | some u =>
    match getIdAccordingToExistingComponent ctx bm u with
    | .error e => .error e
    | .ok r => addPathsLoop ctx bm stats.length (some r) stats
  | none => addPathsLoop ctx bm stats.length none stats

/-- Models lodash `groupby(files, 'relativePath')`: keys in first-occurrence
order, each with its group. -/
def groupByRelativePath (files : List ComponentMapFile) : List (String × List ComponentMapFile) :=
  (dedupFirst (files.map (fun f => f.relativePath))).map (fun k =>
    (k, files.filter (fun f => decide (f.relativePath = k))))

/-- Models `assignwith({}, ...group, (a, b) => a || b)` on one group of
file records sharing a relative path: the test flag is the disjunction,
the name the first non-empty one. -/
def mergeFileGroup (k : String) (g : List ComponentMapFile) : ComponentMapFile :=
  { relativePath := k
    test := g.any (fun f => f.test)
    name := ((g.find? (fun f => decide (f.name ≠ ""))).map (fun f => f.name)).getD "" }

/-- `addOneComponent(componentPathsStats)`: resolve every path, remove
excluded files, drop per-path results without files, and either return the
single survivor or merge all survivors into one component under the fixed
identity. -/
def addOneComponent (ctx : AddComponents) (bm : BitMap) (stats : List (String × Bool)) :
    Except AddError AddedComponent :=
  match addOneComponentParts ctx bm stats with
  | .error e => .error e
  | .ok (fid, comps0) =>
    let comps1 :=
      if ctx.exclude.isEmpty then comps0
      else removeExcludedFilesPure (resolvedExcludedOf ctx comps0) comps0
    let comps2 := comps1.filter (fun c => !c.files.isEmpty)
    match comps2 with
    | [] => .ok { componentId := fid, files := [], mainFile := none, trackDir := none }
    | [c] => .ok c
    | c :: _ =>
      let files := comps2.flatMap (fun x => x.files)
      let uniqComponents := (groupByRelativePath files).map (fun kg => mergeFileGroup kg.1 kg.2)
      .ok { componentId := fid, files := uniqComponents, mainFile := c.mainFile,
            trackDir := c.trackDir }

/-- Map a fallible function over a list, failing at the first error
(the `Promise.all` over per-path resolutions). -/
def exceptMapList {α β : Type} (f : α → Except AddError β) : List α → Except AddError (List β)
  | [] => .ok []
  | x :: xs =>
    match f x with
    | .error e => .error e
    | .ok y =>
      match exceptMapList f xs with
      | .error e => .error e
      | .ok ys => .ok (y :: ys)

/-- The outcome of an invocation: the `addedComponents` results, the
warnings map, the final tracking index and the trace of index writes. -/
structure AddOutcome where
  addedComponents : List AddResult
  warnings : Warnings
  bitMap : BitMap
  writes : List BitMapWrite
deriving DecidableEq

/-- The multi-component path-stat list after removing paths matched by the
test templates (`testToRemove.forEach(... delete ...)`). -/
def multiStatsAfterTests (ctx : AddComponents) (stats : List (String × Bool)) :
    List (String × Bool) :=
  let testToRemove :=
    if ctx.tests.isEmpty then []
    else getFilesAccordingToDsl ctx (stats.map (fun kv => kv.1)) ctx.tests
  stats.filter (fun kv =>
    !((testToRemove.map ctx.normalizePath).any (fun t => decide (t = kv.1))))

/-- Multi-component mode resolution: one `addOneComponent` call per
remaining path. -/
def resolveMultiple (ctx : AddComponents) (bm : BitMap) (stats : List (String × Bool)) :
    Except AddError (List AddedComponent) :=
  exceptMapList (fun kv => addOneComponent ctx bm [kv]) (multiStatsAfterTests ctx stats)

/-- The write loop shared by both modes: components with an empty file set
are skipped, the others are reconciled against the index, accumulating
results, warnings and writes. -/
def addWriteLoop (ctx : AddComponents) :
    BitMap → Warnings → List BitMapWrite → List AddResult → List AddedComponent →
    Except AddError AddOutcome
  | bm, w, ws, rs, [] => .ok { addedComponents := rs, warnings := w, bitMap := bm, writes := ws }
  | bm, w, ws, rs, c :: rest =>
    if c.files.isEmpty then addWriteLoop ctx bm w ws rs rest
    else
      match addOrUpdateComponentInBitMap ctx bm w c with
      | .error e => .error e
      | .ok (res, w2, bm2, ws2) =>
        addWriteLoop ctx bm2 w2 (ws ++ ws2)
          (rs ++ (match res with | some r => [r] | none => [])) rest

/-- The multi-component branch of `add()`: resolve one component per path,
validate identity uniqueness, then reconcile and write. -/
def addMultipleFlow (ctx : AddComponents) (bm : BitMap) (w : Warnings)
    (stats : List (String × Bool)) : Except AddError AddOutcome :=
  match resolveMultiple ctx bm stats with
  | .error e => .error e
  | .ok added =>
    match validateNoDuplicateIds added with
    | .error e => .error e
    | .ok _ => addWriteLoop ctx bm w [] [] added

/-- The single-component branch of `add()`: resolve all paths into one
component, then reconcile and write. -/
def addSingleFlow (ctx : AddComponents) (bm : BitMap) (w : Warnings)
    (stats : List (String × Bool)) : Except AddError AddOutcome :=
  match addOneComponent ctx bm stats with
  | .error e => .error e
  | .ok addedOne => addWriteLoop ctx bm w [] [] [addedOne]

/-- The mode decision of `add()`: multiple paths and no explicit id. -/
def isMultipleComponents (stats : List (String × Bool)) (id : Option String) : Bool :=
  decide (stats.length > 1) && id.isNone

/-- The mode dispatch of `add()` after the stats map is built. -/
def addFromStats (ctx : AddComponents) (bm : BitMap) (w : Warnings)
    (stats : List (String × Bool)) : Except AddError AddOutcome :=
  if isMultipleComponents stats ctx.id then addMultipleFlow ctx bm w stats
  else addSingleFlow ctx bm w stats

/-- Models the `array-difference` package: symmetric difference. -/
def arrayDiff (a b : List String) : List String :=
  a.filter (fun x => !(b.any (fun y => decide (y = x)))) ++
  b.filter (fun x => !(a.any (fun y => decide (y = x))))

/-- `add()`, from the missing-test-file check onward (the ignore-list
construction preceding it is the matcher carried by `gitIgnore`): glob the
component paths, fold the resolved exclude list into the ignore matcher,
build the stats map (with the add-by-test-file fallback and the
`PathsNotExist`/`NoFiles` failures), then dispatch on the mode. -/
def add (ctx : AddComponents) (bm : BitMap) : Except AddError AddOutcome :=
  let missingFiles := ctx.getMissingTestFiles ctx.tests
  if !missingFiles.isEmpty then .error (.pathsNotExist missingFiles)
  else
    let resolvedWithout := ctx.componentPaths.flatMap ctx.globPattern
    let resolvedExcluded := getFilesAccordingToDsl ctx resolvedWithout ctx.exclude
    let ign2 : String → Bool := fun p =>
      ctx.gitIgnore p || resolvedExcluded.any (fun e => decide (e = p))
    let ctx2 := { ctx with gitIgnore := ign2 }
    let resolvedWith := resolvedWithout.filter (fun p => !(ctx2.gitIgnore p))
    let diff := arrayDiff resolvedWith resolvedWithout
    let statsE :=
      if !ctx.tests.isEmpty && ctx.id.isSome && resolvedWithout.isEmpty then
        validatePaths ctx2 (ctx.tests.flatMap ctx.globPattern)
      else if resolvedWithout.isEmpty then .error (.pathsNotExist ctx.componentPaths)
      else if !resolvedWith.isEmpty then validatePaths ctx2 resolvedWith
      else .error (.noFiles diff)
    match statsE with
    | .error e => .error e
    | .ok stats => addFromStats ctx2 bm [] stats

/-- Bare-equality of two resolved components' identities (both set and
bare-equal). -/
def bareEqualComponents (a b : AddedComponent) : Prop :=
  ∃ x y, a.componentId = some x ∧ b.componentId = some y ∧ x.bareEqual y = true

/-! Concrete instances used to evaluate the development on explicit
inputs. -/

/-- A request with trivial collaborators: every path exists, nothing is a
directory, nothing is ignored, globbing a pattern yields the pattern
itself, and path helpers are the identity. -/
def defaultCtx : AddComponents :=
  { componentPaths := []
    id := none
    main := none
    nspace := none
    tests := []
    exclude := []
    override := false
    trackDirFeature := false
    origin := Origin.authored
    consumerPath := ""
    gitIgnore := fun _ => false
    existsFs := fun _ => true
    isDirFs := fun _ => false
    globPattern := fun p => [p]
    globDir := fun _ => []
    dslFormat := fun d _ => d
    relToConsumer := fun p => p
    toAbsolutePath := fun p => p
    resolvePath := fun p => p
    normalizePath := fun p => p
    getMissingTestFiles := fun _ => []
    isAutoGen := fun _ => false
    isSupportedExtension := fun _ => true
    depSourcePaths := fun _ => [] }

def fileBin : ComponentMapFile := { relativePath := "dep.bin", test := false, name := "dep.bin" }

def fileA : ComponentMapFile := { relativePath := "a.js", test := false, name := "a.js" }

def xId : BitId := { scope := none, box := none, name := "xcomp", version := none }

def yId : BitId := { scope := none, box := none, name := "ycomp", version := none }

def bmC1 : BitMap := [{ id := xId, origin := Origin.imported, rootDir := "", files := [fileBin] }]

def ctxC1 : AddComponents :=
  { defaultCtx with
    id := some "ycomp"
    isSupportedExtension := fun _ => false
    depSourcePaths := fun _ => ["dep.bin"] }

def compC1 : AddedComponent :=
  { componentId := some yId, files := [fileBin], mainFile := none, trackDir := none }

def bmC2 : BitMap :=
  [{ id := yId, origin := Origin.imported, rootDir := "", files := [] },
   { id := xId, origin := Origin.authored, rootDir := "", files := [fileA] }]

def compC2 : AddedComponent :=
  { componentId := some yId, files := [fileA], mainFile := none, trackDir := none }

def bmW2 : BitMap := [{ id := xId, origin := Origin.authored, rootDir := "", files := [fileA] }]

def ctxW3 : AddComponents := { defaultCtx with globDir := fun d => [d ++ "/f.js"] }

def statsW3 : List (String × Bool) := [("a/x", true), ("b/y", true)]

def idW3a : BitId := { scope := none, box := some "a", name := "x", version := none }

def idW3b : BitId := { scope := none, box := some "b", name := "y", version := none }

/-- The two components `resolveMultiple` derives for `statsW3` under
`ctxW3`. -/
def addedW3 : List AddedComponent :=
  [{ componentId := some idW3a
     files := [{ relativePath := "a/x/f.js", test := false, name := "f.js" }]
     mainFile := none
     trackDir := some "a/x" },
   { componentId := some idW3b
     files := [{ relativePath := "b/y/f.js", test := false, name := "f.js" }]
     mainFile := none
     trackDir := some "b/y" }]

/-- The outcome of the multi-component flow on `statsW3` under `ctxW3`. -/
def outW3 : AddOutcome :=
  { addedComponents :=
      [{ id := "a/x", files := [{ relativePath := "a/x/f.js", test := false, name := "f.js" }] },
       { id := "b/y", files := [{ relativePath := "b/y/f.js", test := false, name := "f.js" }] }]
    warnings := []
    bitMap :=
      [{ id := idW3a, origin := Origin.authored, rootDir := ""
         files := [{ relativePath := "a/x/f.js", test := false, name := "f.js" }] },
       { id := idW3b, origin := Origin.authored, rootDir := ""
         files := [{ relativePath := "b/y/f.js", test := false, name := "f.js" }] }]
    writes :=
      [BitMapWrite.addComp
        { componentId := some idW3a
          files := [{ relativePath := "a/x/f.js", test := false, name := "f.js" }]
          mainFile := none
          trackDir := some "a/x"
          origin := Origin.authored
          override := false },
       BitMapWrite.addComp
        { componentId := some idW3b
          files := [{ relativePath := "b/y/f.js", test := false, name := "f.js" }]
          mainFile := none
          trackDir := some "b/y"
          origin := Origin.authored
          override := false }] }

def ctxC4 : AddComponents := { defaultCtx with exclude := ["b.js"] }

/-- An index already tracking `b.js` under the identity that `a.js`
derives. -/
def bmC4 : BitMap :=
  [{ id := { scope := none, box := some "", name := "a", version := none }
     origin := Origin.authored
     rootDir := ""
     files := [{ relativePath := "b.js", test := false, name := "b.js" }] }]

def statsC4 : List (String × Bool) := [("a.js", false)]

/-- The component `addOneComponent` resolves for `statsC4` under `ctxC4`:
the excluded `b.js` is absent at the resolve stage. -/
def compC4res : AddedComponent :=
  { componentId := some { scope := none, box := some "", name := "a", version := none }
    files := [{ relativePath := "a.js", test := false, name := "a.js" }]
    mainFile := none
    trackDir := none }

/-- The outcome of the single-component flow on `statsC4`: the index merge
reintroduces the previously tracked `b.js` into the returned entry. -/
def outC4 : AddOutcome :=
  { addedComponents :=
      [{ id := "/a"
         files := [{ relativePath := "a.js", test := false, name := "a.js" },
                   { relativePath := "b.js", test := false, name := "b.js" }] }]
    warnings := []
    bitMap :=
      [{ id := { scope := none, box := some "", name := "a", version := none }
         origin := Origin.authored
         rootDir := ""
         files := [{ relativePath := "a.js", test := false, name := "a.js" },
                   { relativePath := "b.js", test := false, name := "b.js" }] }]
    writes :=
      [BitMapWrite.addComp
        { componentId := some { scope := none, box := some "", name := "a", version := none }
          files := [{ relativePath := "a.js", test := false, name := "a.js" }]
          mainFile := none
          trackDir := none
          origin := Origin.authored
          override := false }] }

def ctxW4 : AddComponents := { defaultCtx with exclude := ["x.js"] }

def statsW4 : List (String × Bool) := [("y.js", false)]

def compW4 : AddedComponent :=
  { componentId := some { scope := none, box := some "", name := "y", version := none }
    files := [{ relativePath := "y.js", test := false, name := "y.js" }]
    mainFile := none
    trackDir := none }

def comps0W4 : List AddedComponent := [compW4]

def ctxW5 : AddComponents := { defaultCtx with id := some "mycomp" }

def idW5 : BitId := { scope := none, box := none, name := "mycomp", version := none }

def statsW5 : List (String × Bool) := [("a/f.js", false)]

def compW5 : AddedComponent :=
  { componentId := some idW5
    files := [{ relativePath := "a/f.js", test := false, name := "f.js" }]
    mainFile := none
    trackDir := none }

def ctxC6 : AddComponents := { defaultCtx with existsFs := fun _ => false }

def nestedId : BitId := { scope := none, box := some "ns", name := "comp", version := none }

def bmC7 : BitMap := [{ id := nestedId, origin := Origin.nested, rootDir := "", files := [] }]

def ctxC7 : AddComponents := { defaultCtx with id := some "ns/comp@1" }

def ctxW7 : AddComponents := { defaultCtx with id := some "c@1" }

def ctxC8 : AddComponents :=
  { defaultCtx with existsFs := fun _ => false, main := some "mainfile.js" }

def filesC8 : List ComponentMapFile := [fileA]

def statsW9 : List (String × Bool) := [("f.js", false)]

def fileF : ComponentMapFile := { relativePath := "f.js", test := false, name := "f.js" }

def idW9 : BitId := { scope := none, box := some "", name := "f", version := none }

def recW9 : AddComponentRecord :=
  { componentId := some idW9, files := [fileF], mainFile := none, trackDir := none,
    origin := Origin.authored, override := false }

def outW9 : AddOutcome :=
  { addedComponents := [{ id := "/f", files := [fileF] }]
    warnings := []
    bitMap := [{ id := idW9, origin := Origin.authored, rootDir := "", files := [fileF] }]
    writes := [.addComp recW9] }

def ctxW10 : AddComponents := { defaultCtx with origin := Origin.imported }

/-! Helper lemmas. -/

lemma validatePathsLoop_first_missing (ctx : AddComponents) (p : String) (post : List String)
    (hp : ctx.existsFs p = false) :
    ∀ (pre : List String) (acc : List (String × Bool)),
      (∀ q ∈ pre, ctx.existsFs q = true) →
      validatePathsLoop ctx acc (pre ++ p :: post) = .error (.pathsNotExist [p]) := by
  intro pre
  induction pre with
  | nil =>
    intro acc _
    simp [validatePathsLoop, hp]
  | cons q pre ih =>
    intro acc hq
    have hq1 : ctx.existsFs q = true := hq q (by simp)
    simp only [List.cons_append, validatePathsLoop, hq1, if_true]
    exact ih _ (fun r hr => hq r (by simp [hr]))

lemma mem_dedupFirstAux {α : Type} [DecidableEq α] :
    ∀ (l seen : List α) (a : α), (a ∈ dedupFirstAux seen l ↔ a ∈ l ∧ a ∉ seen) := by
  intro l
  induction l with
  | nil => intro seen a; simp [dedupFirstAux]
  | cons x xs ih =>
    intro seen a
    by_cases hx : x ∈ seen
    · rw [dedupFirstAux, if_pos hx, ih]
      constructor
      · exact fun ⟨h1, h2⟩ => ⟨List.mem_cons_of_mem x h1, h2⟩
      · rintro ⟨h1, h2⟩
        rcases List.mem_cons.mp h1 with rfl | h1
        · exact absurd hx h2
        · exact ⟨h1, h2⟩
    · rw [dedupFirstAux, if_neg hx]
      constructor
      · intro h
        rcases List.mem_cons.mp h with rfl | h
        · exact ⟨List.mem_cons_self a xs, hx⟩
        · rcases (ih (x :: seen) a).mp h with ⟨h1, h2⟩
          exact ⟨List.mem_cons_of_mem x h1,
            fun hs => h2 (List.mem_cons_of_mem x hs)⟩
      · rintro ⟨h1, h2⟩
        rcases List.mem_cons.mp h1 with rfl | h1
        · exact List.mem_cons_self a _
        · by_cases hax : a = x
          · subst hax; exact List.mem_cons_self a _
          · exact List.mem_cons_of_mem x ((ih (x :: seen) a).mpr
              ⟨h1, fun hs => (List.mem_cons.mp hs).elim hax h2⟩)

lemma mem_dedupFirst {α : Type} [DecidableEq α] :
    ∀ (l : List α), ∀ a : α, (a ∈ dedupFirst l ↔ a ∈ l) := by
  intro l a
  rw [dedupFirst, mem_dedupFirstAux]
  simp

lemma removeExcludedOne_not_excluded (excluded : List String) (c : AddedComponent) :
    ∀ fl ∈ (removeExcludedOne excluded c).files, ¬ fl.relativePath ∈ excluded := by
  intro fl hfl hmem
  simp only [removeExcludedOne] at hfl
  split at hfl
  · simp at hfl
  · have h2 := (List.mem_filter.mp hfl).2
    simp only [Bool.not_eq_true'] at h2
    rw [List.any_eq_false] at h2
    have := h2 fl.relativePath hmem
    simp at this

lemma removeExcludedOne_main_excluded (excluded : List String) (c : AddedComponent)
    (m : String) (hm : c.mainFile = some m)
    (hmem : pathNormalizeToLinux m ∈ excluded) :
    (removeExcludedOne excluded c).files = [] := by
  simp only [removeExcludedOne]
  split
  · rfl
  · rename_i hcond
    exfalso
    apply hcond
    simp only [hm, Option.map_some', List.any_eq_true]
    exact ⟨pathNormalizeToLinux m, hmem, by simp⟩

lemma mem_filtered_comps_not_excluded (excl : List String) (comps0 : List AddedComponent)
    (comp : AddedComponent)
    (hc : comp ∈ (removeExcludedFilesPure excl comps0).filter (fun c => !c.files.isEmpty)) :
    ∀ fl ∈ comp.files, ¬ fl.relativePath ∈ excl := by
  intro fl hfl
  have h1 := (List.mem_filter.mp hc).1
  rcases List.mem_map.mp h1 with ⟨orig, _, horig⟩
  exact removeExcludedOne_not_excluded excl orig fl (horig ▸ hfl)

/-! Claim theorems, witnesses and counterexamples. -/

lemma importedFileCase_parts (ctx : AddComponents) (bm : BitMap)
    (found : Option BitMapEntry) (f : ComponentMapFile)
    (hoff : importedFileCase ctx bm found f = true) :
    ctx.isAutoGen (pathJoin ctx.consumerPath f.relativePath) = false ∧
    (decide ((found.map (fun e => e.origin)) = some Origin.imported) ||
     decide ((((fileOwner bm f).bind (fun o => BitMap.getComponent bm o)).map
       (fun e => e.origin)) = some Origin.imported)) = true := by
  unfold importedFileCase at hoff
  rw [Bool.and_eq_true] at hoff
  obtain ⟨hna, hdisj⟩ := hoff
  rw [Bool.not_eq_true'] at hna
  exact ⟨hna, hdisj⟩

lemma not_importedFileCase_disj (ctx : AddComponents) (bm : BitMap)
    (found : Option BitMapEntry) (f : ComponentMapFile)
    (hauto : ctx.isAutoGen (pathJoin ctx.consumerPath f.relativePath) = false)
    (hni : importedFileCase ctx bm found f = false) :
    (decide ((found.map (fun e => e.origin)) = some Origin.imported) ||
     decide ((((fileOwner bm f).bind (fun o => BitMap.getComponent bm o)).map
       (fun e => e.origin)) = some Origin.imported)) = false := by
  unfold importedFileCase at hni
  rw [hauto] at hni
  simpa using hni

lemma processFile_missing (ctx : AddComponents) (bm : BitMap) (cid? : Option BitId)
    (found : Option BitMapEntry) (w : Warnings) (f : ComponentMapFile)
    (hid : ctx.id = none)
    (hoff : importedFileCase ctx bm found f = true) :
    processComponentFile ctx bm cid? found w f =
      .error (.missingComponentIdForImportedComponent
        ((cid?.map BitId.toStringWithoutVersion).getD "undefined")) := by
  obtain ⟨hna, hdisj⟩ := importedFileCase_parts ctx bm found f hoff
  simp [processComponentFile, hna, fileOwner] at hdisj ⊢
  rw [if_pos hdisj, hid]

lemma processFile_incorrect (ctx : AddComponents) (bm : BitMap) (cid? : Option BitId)
    (found : Option BitMapEntry) (w : Warnings) (f : ComponentMapFile) (u : String)
    (hid : ctx.id = some u)
    (hoff : importedFileCase ctx bm found f = true)
    (hdiff : fileOwnerDiffers bm cid? f = true) :
    processComponentFile ctx bm cid? found w f =
      .error (.incorrectIdForImportedComponent
        (((fileOwner bm f).map BitId.toStringWithoutVersion).getD "undefined")
        u f.relativePath) := by
  obtain ⟨hna, hdisj⟩ := importedFileCase_parts ctx bm found f hoff
  simp [processComponentFile, hna, fileOwner] at hdisj ⊢
  rw [if_pos hdisj, hid]
  simp [hdiff, fileOwner]

lemma processFile_placeholder_dropped (ctx : AddComponents) (bm : BitMap)
    (cid? : Option BitId) (found : Option BitMapEntry) (w : Warnings)
    (f : ComponentMapFile) (u : String)
    (hid : ctx.id = some u)
    (hoff : importedFileCase ctx bm found f = true)
    (hdiff : fileOwnerDiffers bm cid? f = false)
    (hgen : isGeneratedForUnsupportedFiles ctx f.relativePath cid? found = true) :
    processComponentFile ctx bm cid? found w f = .ok (none, w, false) := by
  obtain ⟨hna, hdisj⟩ := importedFileCase_parts ctx bm found f hoff
  simp [processComponentFile, hna, fileOwner] at hdisj ⊢
  rw [if_pos hdisj, hid]
  simp [hdiff, hgen]

lemma processFile_warned (ctx : AddComponents) (bm : BitMap) (cid? : Option BitId)
    (found : Option BitMapEntry) (w : Warnings) (f : ComponentMapFile)
    (hauto : ctx.isAutoGen (pathJoin ctx.consumerPath f.relativePath) = false)
    (hni : importedFileCase ctx bm found f = false)
    (hdiff : fileOwnerDiffers bm cid? f = true) :
    processComponentFile ctx bm cid? found w f =
      .ok (none,
        warningsAdd w (((fileOwner bm f).map BitId.toStringFull).getD "undefined")
          f.relativePath,
        false) := by
  have hdisj := not_importedFileCase_disj ctx bm found f hauto hni
  simp [processComponentFile, hauto, fileOwner] at hdisj ⊢
  rw [if_neg (by push_neg; exact hdisj), if_pos hdiff]

lemma processFile_ok_of_not_imported (ctx : AddComponents) (bm : BitMap)
    (cid? : Option BitId) (found : Option BitMapEntry) (w : Warnings)
    (f : ComponentMapFile)
    (hni : importedFileCase ctx bm found f = false) :
    ∃ keep w2 d, processComponentFile ctx bm cid? found w f = .ok (keep, w2, d) := by
  by_cases hauto : ctx.isAutoGen (pathJoin ctx.consumerPath f.relativePath) = true
  · refine ⟨none, w, false, ?_⟩
    simp [processComponentFile, hauto]
  · rw [Bool.not_eq_true] at hauto
    have hdisj := not_importedFileCase_disj ctx bm found f hauto hni
    by_cases hdiff : fileOwnerDiffers bm cid? f = true
    · exact ⟨none, _, false, processFile_warned ctx bm cid? found w f hauto hni hdiff⟩
    · rw [Bool.not_eq_true] at hdiff
      refine ⟨some f, w, false, ?_⟩
      simp [processComponentFile, hauto, fileOwner] at hdisj ⊢
      rw [if_neg (by push_neg; exact hdisj), if_neg (by simp [hdiff])]

lemma processFile_ok_of_matching_imported (ctx : AddComponents) (bm : BitMap)
    (cid? : Option BitId) (found : Option BitMapEntry) (w : Warnings)
    (f : ComponentMapFile) (u : String)
    (hid : ctx.id = some u)
    (hdiff : fileOwnerDiffers bm cid? f = false) :
    ∃ keep w2 d, processComponentFile ctx bm cid? found w f = .ok (keep, w2, d) := by
  by_cases hauto : ctx.isAutoGen (pathJoin ctx.consumerPath f.relativePath) = true
  · refine ⟨none, w, false, ?_⟩
    simp [processComponentFile, hauto]
  · rw [Bool.not_eq_true] at hauto
    by_cases hoff : importedFileCase ctx bm found f = true
    · by_cases hgen : isGeneratedForUnsupportedFiles ctx f.relativePath cid? found = true
      · exact ⟨none, w, false,
          processFile_placeholder_dropped ctx bm cid? found w f u hid hoff hdiff hgen⟩
      · rw [Bool.not_eq_true] at hgen
        obtain ⟨hna, hdisj⟩ := importedFileCase_parts ctx bm found f hoff
        refine ⟨some f, w, true, ?_⟩
        simp [processComponentFile, hna, fileOwner] at hdisj ⊢
        rw [if_pos hdisj, hid]
        simp [hdiff, hgen]
    · rw [Bool.not_eq_true] at hoff
      exact processFile_ok_of_not_imported ctx bm cid? found w f hoff

lemma processFile_kept (ctx : AddComponents) (bm : BitMap) (cid? : Option BitId)
    (found : Option BitMapEntry) (w : Warnings) (f k : ComponentMapFile)
    (w2 : Warnings) (d : Bool)
    (h : processComponentFile ctx bm cid? found w f = .ok (some k, w2, d)) :
    k = f ∧ fileOwnerDiffers bm cid? f = false := by
  unfold processComponentFile at h
  repeat' split at h
  all_goals simp_all [fileOwner, fileOwnerDiffers]

lemma warningsGet_warningsAdd (w : Warnings) (k' q k : String) :
    warningsGet (warningsAdd w k' q) k =
      if k = k' then warningsGet w k ++ [q] else warningsGet w k := by
  unfold warningsAdd warningsGet
  by_cases hany : w.any (fun kv => decide (kv.1 = k')) = true
  · rw [if_pos hany, List.find?_map]
    have hcong : ((fun kv : String × List String => decide (kv.1 = k)) ∘
        (fun kv : String × List String => if kv.1 = k' then (kv.1, kv.2 ++ [q]) else kv)) =
        fun kv : String × List String => decide (kv.1 = k) := by
      funext kv
      by_cases hk : kv.1 = k' <;> simp [hk]
    rw [hcong]
    cases hf : w.find? (fun kv => decide (kv.1 = k)) with
    | none =>
      by_cases hkk : k = k'
      · exfalso
        rw [List.any_eq_true] at hany
        rcases hany with ⟨kv, hkv, hkv2⟩
        rw [List.find?_eq_none] at hf
        exact hf kv hkv (by simp_all)
      · simp [hkk]
    | some kv =>
      have hkv := List.find?_some hf
      simp only [decide_eq_true_eq] at hkv
      by_cases hkk : k = k'
      · simp [hkv, hkk]
      · have : ¬ kv.1 = k' := by rw [hkv]; exact hkk
        simp [this, hkk]
  · rw [if_neg hany, List.find?_append]
    rw [Bool.not_eq_true, List.any_eq_false] at hany
    cases hf : w.find? (fun kv => decide (kv.1 = k)) with
    | none =>
      by_cases hkk : k = k'
      · simp [Option.or, hkk]
      · have hne : ¬ k' = k := fun h => hkk h.symm
        simp [Option.or, List.find?_cons, hne, hkk]
    | some kv =>
      have hkv := List.find?_some hf
      simp only [decide_eq_true_eq] at hkv
      have hmem := List.mem_of_find?_eq_some hf
      by_cases hkk : k = k'
      · exfalso
        have := hany kv hmem
        simp [hkv, hkk] at this
      · simp [Option.or, hkk]

lemma warningsGet_mono_add (w : Warnings) (k' q k p : String)
    (hp : p ∈ warningsGet w k) : p ∈ warningsGet (warningsAdd w k' q) k := by
  rw [warningsGet_warningsAdd]
  by_cases hkk : k = k'
  · rw [if_pos hkk]
    exact List.mem_append_left _ hp
  · rw [if_neg hkk]
    exact hp

lemma warningsAdd_mem_self (w : Warnings) (k q : String) :
    q ∈ warningsGet (warningsAdd w k q) k := by
  rw [warningsGet_warningsAdd]
  simp

lemma processFile_warnings_mono (ctx : AddComponents) (bm : BitMap) (cid? : Option BitId)
    (found : Option BitMapEntry) (w : Warnings) (f : ComponentMapFile)
    (keep : Option ComponentMapFile) (w2 : Warnings) (d : Bool)
    (h : processComponentFile ctx bm cid? found w f = .ok (keep, w2, d)) :
    ∀ k p, p ∈ warningsGet w k → p ∈ warningsGet w2 k := by
  intro k p hp
  unfold processComponentFile at h
  repeat' split at h
  all_goals first
    | exact Except.noConfusion h
    | (injection h with h2
       injection h2 with h3 h4
       injection h4 with h5 h6
       first
         | (rw [← h5]; exact hp)
         | (rw [← h5]; exact warningsGet_mono_add _ _ _ _ p hp))

lemma processFiles_ok_all (ctx : AddComponents) (bm : BitMap) (cid? : Option BitId)
    (found : Option BitMapEntry) :
    ∀ (gs : List ComponentMapFile),
      (∀ g ∈ gs, importedFileCase ctx bm found g = false) →
      ∀ w, ∃ ks w2 d, processFiles ctx bm cid? found w gs = .ok (ks, w2, d) := by
  intro gs
  induction gs with
  | nil => exact fun _ w => ⟨[], w, false, rfl⟩
  | cons g rest ih =>
    intro hall w
    obtain ⟨keep, w1, d1, hg⟩ := processFile_ok_of_not_imported ctx bm cid? found w g
      (hall g (by simp))
    obtain ⟨ks, w2, d2, hrest⟩ := ih (fun x hx => hall x (by simp [hx])) w1
    cases keep with
    | some k =>
      refine ⟨k :: ks, w2, d1 || d2, ?_⟩
      rw [processFiles, hg]
      simp only []
      rw [hrest]
    | none =>
      refine ⟨ks, w2, d1 || d2, ?_⟩
      rw [processFiles, hg]
      simp only []
      rw [hrest]

lemma processFiles_error_after_prefix (ctx : AddComponents) (bm : BitMap)
    (cid? : Option BitId) (found : Option BitMapEntry) (f : ComponentMapFile)
    (post : List ComponentMapFile) (e : AddError)
    (hf : ∀ w', processComponentFile ctx bm cid? found w' f = .error e) :
    ∀ (pre : List ComponentMapFile),
      (∀ g ∈ pre, ∀ w', ∃ keep w2 d,
        processComponentFile ctx bm cid? found w' g = .ok (keep, w2, d)) →
      ∀ w, processFiles ctx bm cid? found w (pre ++ f :: post) = .error e := by
  intro pre
  induction pre with
  | nil =>
    intro _ w
    rw [List.nil_append, processFiles, hf w]
  | cons g pre ih =>
    intro hpre w
    obtain ⟨keep, w1, d1, hg⟩ := hpre g (by simp) w
    rw [List.cons_append, processFiles, hg]
    simp only []
    rw [ih (fun x hx w' => hpre x (by simp [hx]) w') w1]

lemma processFiles_warn_mono (ctx : AddComponents) (bm : BitMap) (cid? : Option BitId)
    (found : Option BitMapEntry) :
    ∀ (gs : List ComponentMapFile) (w : Warnings) (ks : List ComponentMapFile)
      (w2 : Warnings) (d : Bool),
      processFiles ctx bm cid? found w gs = .ok (ks, w2, d) →
      ∀ k p, p ∈ warningsGet w k → p ∈ warningsGet w2 k := by
  intro gs
  induction gs with
  | nil =>
    intro w ks w2 d h k p hp
    simp only [processFiles, Except.ok.injEq, Prod.mk.injEq] at h
    rw [← h.2.1]
    exact hp
  | cons g rest ih =>
    intro w ks w2 d h k p hp
    rw [processFiles] at h
    split at h
    · exact Except.noConfusion h
    · rename_i keep w1 d1 heq
      split at h
      · exact Except.noConfusion h
      · rename_i ks0 w2a d2 heq2
        injection h with h2
        injection h2 with h3 h4
        injection h4 with h5 h6
        rw [← h5]
        exact ih w1 ks0 w2a d2 heq2 k p
          (processFile_warnings_mono ctx bm cid? found w g keep w1 d1 heq k p hp)

lemma processFiles_mem_warn (ctx : AddComponents) (bm : BitMap) (cid? : Option BitId)
    (found : Option BitMapEntry) (f : ComponentMapFile) (ox : BitId)
    (hox : fileOwner bm f = some ox)
    (hauto : ctx.isAutoGen (pathJoin ctx.consumerPath f.relativePath) = false)
    (hdiff : fileOwnerDiffers bm cid? f = true) :
    ∀ (gs : List ComponentMapFile),
      (∀ g ∈ gs, importedFileCase ctx bm found g = false) → f ∈ gs →
      ∀ (w : Warnings) (ks : List ComponentMapFile) (w2 : Warnings) (d : Bool),
      processFiles ctx bm cid? found w gs = .ok (ks, w2, d) →
      f.relativePath ∈ warningsGet w2 (BitId.toStringFull ox) := by
  intro gs
  induction gs with
  | nil =>
    intro _ hf
    simp at hf
  | cons g rest ih =>
    intro hall hf w ks w2 d h
    rw [processFiles] at h
    split at h
    · exact Except.noConfusion h
    · rename_i keep w1 d1 heq
      split at h
      · exact Except.noConfusion h
      · rename_i ks0 w2a d2 heq2
        injection h with h2
        injection h2 with h3 h4
        injection h4 with h5 h6
        rcases List.mem_cons.mp hf with rfl | hf2
        · have hw := processFile_warned ctx bm cid? found w f hauto (hall f (by simp)) hdiff
          rw [hw] at heq
          injection heq with h7
          injection h7 with h8 h9
          injection h9 with h10 h11
          have hkey : ((fileOwner bm f).map BitId.toStringFull).getD "undefined" =
              BitId.toStringFull ox := by
            rw [hox]
            rfl
          have hmem1 : f.relativePath ∈ warningsGet w1 (BitId.toStringFull ox) := by
            rw [← h10, hkey]
            exact warningsAdd_mem_self w (BitId.toStringFull ox) f.relativePath
          rw [← h5]
          exact processFiles_warn_mono ctx bm cid? found rest w1 ks0 w2a d2 heq2 _ _ hmem1
        · rw [← h5]
          exact ih (fun x hx => hall x (by simp [hx])) hf2 w1 ks0 w2a d2 heq2

lemma processFiles_kept_not_differ (ctx : AddComponents) (bm : BitMap) (cid? : Option BitId)
    (found : Option BitMapEntry) :
    ∀ (gs : List ComponentMapFile) (w : Warnings) (ks : List ComponentMapFile)
      (w2 : Warnings) (d : Bool),
      processFiles ctx bm cid? found w gs = .ok (ks, w2, d) →
      ∀ k ∈ ks, fileOwnerDiffers bm cid? k = false := by
  intro gs
  induction gs with
  | nil =>
    intro w ks w2 d h k hk
    simp only [processFiles, Except.ok.injEq, Prod.mk.injEq] at h
    rw [← h.1] at hk
    simp at hk
  | cons g rest ih =>
    intro w ks w2 d h k hk
    rw [processFiles] at h
    split at h
    · exact Except.noConfusion h
    · rename_i keep w1 d1 heq
      split at h
      · exact Except.noConfusion h
      · rename_i ks0 w2a d2 heq2
        injection h with h2
        injection h2 with h3 h4
        rw [← h3] at hk
        cases keep with
        | none => exact ih w1 ks0 w2a d2 heq2 k hk
        | some kk =>
          rcases List.mem_cons.mp hk with rfl | hk2
          · obtain ⟨hkf, hnd⟩ := processFile_kept ctx bm cid? found w g k w1 d1 heq
            rw [hkf]
            exact hnd
          · exact ih w1 ks0 w2a d2 heq2 k hk2

lemma writeFiles_addToBitMap (ctx : AddComponents) (bm : BitMap) (c : AddedComponent) :
    writeFiles (addToBitMap ctx bm c).1 = c.files := by
  unfold addToBitMap
  split <;> simp [writeFiles]

lemma addOrUpdate_shape (ctx : AddComponents) (bm : BitMap) (w : Warnings)
    (component : AddedComponent) (res : Option AddResult) (w2 : Warnings) (bm2 : BitMap)
    (ws : List BitMapWrite)
    (h : addOrUpdateComponentInBitMap ctx bm w component = .ok (res, w2, bm2, ws)) :
    (res = none ∧ ws = [] ∧ bm2 = bm) ∨
    (∃ r wr, res = some r ∧ ws = [wr] ∧ writeFiles wr ≠ []) := by
  unfold addOrUpdateComponentInBitMap at h
  simp only [] at h
  split at h
  · exact Except.noConfusion h
  · rename_i componentFiles w1 delTrack hpf
    split at h
    · rename_i hempty
      left
      injection h with h2
      simp only [Prod.mk.injEq] at h2
      exact ⟨h2.1.symm, h2.2.2.2.symm, h2.2.2.1.symm⟩
    · rename_i hempty
      right
      injection h with h2
      simp only [Prod.mk.injEq] at h2
      refine ⟨_, _, h2.1.symm, h2.2.2.2.symm, ?_⟩
      rw [writeFiles_addToBitMap]
      intro hnil
      simp only at hnil
      rw [hnil] at hempty
      simp at hempty

lemma addWriteLoop_inv (ctx : AddComponents) :
    ∀ (comps : List AddedComponent) (bm : BitMap) (w : Warnings) (ws : List BitMapWrite)
      (rs : List AddResult) (out : AddOutcome),
      (∀ wr ∈ ws, writeFiles wr ≠ []) →
      ws.length = rs.length →
      addWriteLoop ctx bm w ws rs comps = .ok out →
      (∀ wr ∈ out.writes, writeFiles wr ≠ []) ∧
        out.writes.length = out.addedComponents.length := by
  intro comps
  induction comps with
  | nil =>
    intro bm w ws rs out hws hlen h
    rw [addWriteLoop] at h
    injection h with h2
    rw [← h2]
    exact ⟨hws, hlen⟩
  | cons c rest ih =>
    intro bm w ws rs out hws hlen h
    rw [addWriteLoop] at h
    split at h
    · exact ih bm w ws rs out hws hlen h
    · split at h
      · exact Except.noConfusion h
      · rename_i res w2 bm2 ws2 hadd
        rcases addOrUpdate_shape ctx bm w c res w2 bm2 ws2 hadd with
          ⟨hres, hws2, _⟩ | ⟨r, wr, hres, hws2, hnf⟩
        · rw [hres, hws2] at h
          refine ih bm2 w2 (ws ++ []) (rs ++ []) out ?_ ?_ h
          · simpa using hws
          · simpa using hlen
        · rw [hres, hws2] at h
          refine ih bm2 w2 (ws ++ [wr]) (rs ++ [r]) out ?_ ?_ h
          · intro wr2 hwr2
            rcases List.mem_append.mp hwr2 with hl | hr
            · exact hws wr2 hl
            · rw [List.mem_singleton.mp hr]
              exact hnf
          · simp [hlen]

lemma addFromStats_writes (ctx : AddComponents) (bm : BitMap) (w : Warnings)
    (stats : List (String × Bool)) (out : AddOutcome)
    (h : addFromStats ctx bm w stats = .ok out) :
    (∀ wr ∈ out.writes, writeFiles wr ≠ []) ∧
      out.writes.length = out.addedComponents.length := by
  unfold addFromStats at h
  split at h
  · unfold addMultipleFlow at h
    split at h
    · exact Except.noConfusion h
    · rename_i added hres
      split at h
      · exact Except.noConfusion h
      · exact addWriteLoop_inv ctx added bm w [] [] out (by simp) rfl h
  · unfold addSingleFlow at h
    split at h
    · exact Except.noConfusion h
    · rename_i addedOne hone
      exact addWriteLoop_inv ctx [addedOne] bm w [] [] out (by simp) rfl h

/-- Claim C10: for every component persisted through the non-track-directory
path, the record handed to the tracking index's insert/merge operation
(`addToBitMap`) carries origin `authored`, regardless of the origin tag of
the request — even when the request's origin is `imported`. -/
theorem c10_record_origin_always_authored (ctx : AddComponents) (bm : BitMap)
    (c : AddedComponent) (h : ctx.trackDirFeature = false) :
    writeOrigin (addToBitMap ctx bm c).1 = some Origin.authored := by
  simp [addToBitMap, h, writeOrigin]

/-- Claim C10 witness: a request whose origin tag is `imported` still hands
an `authored` record to the index. -/
theorem c10_record_origin_always_authored_witness :
    writeOrigin (addToBitMap ctxW10 [] compC1).1 = some Origin.authored :=
  c10_record_origin_always_authored ctxW10 [] compC1 rfl

/-- Claim C6 (amended): when an input path is missing, `validatePaths`
fails with `PathsNotExist` carrying only the first missing path — not the
full list of missing paths. -/
theorem c6_validate_fails_on_first_missing (ctx : AddComponents)
    (pre : List String) (p : String) (post : List String)
    (hpre : ∀ q ∈ pre, ctx.existsFs q = true)
    (hp : ctx.existsFs p = false) :
    validatePaths ctx (pre ++ p :: post) = .error (.pathsNotExist [p]) :=
  validatePathsLoop_first_missing ctx p post hp pre [] hpre

/-- Claim C6 witness: with both `alpha` and `beta` missing, validation
fails naming only `alpha`. -/
theorem c6_validate_fails_on_first_missing_witness :
    validatePaths ctxC6 ["alpha", "beta"] = .error (.pathsNotExist ["alpha"]) :=
  c6_validate_fails_on_first_missing ctxC6 [] "alpha" ["beta"] (by simp) rfl

/-- Claim C6 counterexample: with two missing paths the error does not
carry the full offending list, refuting the claim that it collects all
missing paths. -/
theorem c6_counterexample :
    validatePaths ctxC6 ["alpha", "beta"] = .error (.pathsNotExist ["alpha"]) ∧
    validatePaths ctxC6 ["alpha", "beta"] ≠ .error (.pathsNotExist ["alpha", "beta"]) := by
  constructor
  · rfl
  · decide

lemma bareEqual_iff (a b : BitId) :
    a.bareEqual b = true ↔ (a.box = b.box ∧ a.name = b.name) := by
  simp [BitId.bareEqual]

lemma parseStr_scope_version (s : String) :
    (BitId.parseStr s).scope = none ∧ (BitId.parseStr s).version = none := by
  unfold BitId.parseStr
  cases h : strSplit '/' ((strSplit '@' s).headD s) with
  | nil =>
    simp only [h]
    simp
  | cons b rest =>
    cases rest with
    | nil =>
      simp only [h]
      simp
    | cons r rs =>
      simp only [h]
      simp

lemma parseStr_eq_of_bareEqual (c1 c2 : String)
    (h : (BitId.parseStr c1).bareEqual (BitId.parseStr c2) = true) :
    BitId.parseStr c1 = BitId.parseStr c2 := by
  obtain ⟨hs1, hv1⟩ := parseStr_scope_version c1
  obtain ⟨hs2, hv2⟩ := parseStr_scope_version c2
  rw [bareEqual_iff] at h
  have hgen : ∀ (x y : BitId), x.scope = none → y.scope = none → x.version = none →
      y.version = none → x.box = y.box → x.name = y.name → x = y := by
    intro x y hx hy hvx hvy hb hn
    cases x
    cases y
    simp_all
  exact hgen _ _ hs1 hs2 hv1 hv2 h.1 h.2

lemma getExistingBitId_some (bm : BitMap) (s : String) (i : BitId)
    (h : BitMap.getExistingBitId bm s = some i) :
    ∃ e ∈ bm, e.id = i ∧ i.bareEqual (BitId.parseStr s) = true := by
  unfold BitMap.getExistingBitId at h
  cases hf : bm.find? (fun e => e.id.bareEqual (BitId.parseStr s)) with
  | none =>
    rw [hf] at h
    exact Option.noConfusion h
  | some e =>
    rw [hf] at h
    simp only [Option.map_some'] at h
    injection h with h2
    have hprop := List.find?_some hf
    rw [h2] at hprop
    exact ⟨e, List.mem_of_find?_eq_some hf, h2, hprop⟩

lemma getExistingBitId_none (bm : BitMap) (s : String)
    (h : BitMap.getExistingBitId bm s = none) :
    ∀ e ∈ bm, e.id.bareEqual (BitId.parseStr s) = false := by
  unfold BitMap.getExistingBitId at h
  rw [Option.map_eq_none'] at h
  rw [List.find?_eq_none] at h
  intro e he
  have := h e he
  simpa using this

lemma getExistingBitId_congr (bm : BitMap) (c1 c2 : String)
    (h : BitId.parseStr c1 = BitId.parseStr c2) :
    BitMap.getExistingBitId bm c1 = BitMap.getExistingBitId bm c2 := by
  unfold BitMap.getExistingBitId
  rw [h]

lemma getId_ok_shape (ctx : AddComponents) (bm : BitMap) (c : String) (r : BitId)
    (h : getIdAccordingToExistingComponent ctx bm c = .ok r) :
    r = (BitMap.getExistingBitId bm c).getD (BitId.parseStr c) := by
  unfold getIdAccordingToExistingComponent at h
  simp only [] at h
  split at h
  · exact Except.noConfusion h
  · split at h
    · exact Except.noConfusion h
    · injection h with h2
      exact h2.symm

lemma bareEqual_symm (a b : BitId) (h : a.bareEqual b = true) : b.bareEqual a = true := by
  rw [bareEqual_iff] at h ⊢
  exact ⟨h.1.symm, h.2.symm⟩

lemma bareEqual_trans (a b c : BitId) (h1 : a.bareEqual b = true)
    (h2 : b.bareEqual c = true) : a.bareEqual c = true := by
  rw [bareEqual_iff] at h1 h2 ⊢
  exact ⟨h1.1.trans h2.1, h1.2.trans h2.2⟩

lemma resolvedId_bare_inj (ctx1 ctx2 : AddComponents) (bm : BitMap) (c1 c2 : String)
    (r1 r2 : BitId)
    (h1 : getIdAccordingToExistingComponent ctx1 bm c1 = .ok r1)
    (h2 : getIdAccordingToExistingComponent ctx2 bm c2 = .ok r2)
    (hb : r1.bareEqual r2 = true) : r1 = r2 := by
  have hr1 := getId_ok_shape ctx1 bm c1 r1 h1
  have hr2 := getId_ok_shape ctx2 bm c2 r2 h2
  cases hf1 : BitMap.getExistingBitId bm c1 with
  | some i1 =>
    obtain ⟨e1, he1m, he1id, hb1⟩ := getExistingBitId_some bm c1 i1 hf1
    cases hf2 : BitMap.getExistingBitId bm c2 with
    | some i2 =>
      obtain ⟨e2, he2m, he2id, hb2⟩ := getExistingBitId_some bm c2 i2 hf2
      rw [hf1] at hr1
      rw [hf2] at hr2
      simp only [Option.getD_some] at hr1 hr2
      have hbi : i1.bareEqual i2 = true := by
        rw [← hr1, ← hr2]
        exact hb
      have hp : (BitId.parseStr c1).bareEqual (BitId.parseStr c2) = true :=
        bareEqual_trans _ _ _ (bareEqual_symm _ _ hb1) (bareEqual_trans _ _ _ hbi hb2)
      have hcongr := getExistingBitId_congr bm c1 c2 (parseStr_eq_of_bareEqual c1 c2 hp)
      rw [hf1, hf2] at hcongr
      injection hcongr with h3
      rw [hr1, hr2, h3]
    | none =>
      exfalso
      rw [hf1] at hr1
      rw [hf2] at hr2
      simp only [Option.getD_some, Option.getD_none] at hr1 hr2
      have hbi : i1.bareEqual (BitId.parseStr c2) = true := by
        rw [← hr1, ← hr2]
        exact hb
      have hp : (BitId.parseStr c1).bareEqual (BitId.parseStr c2) = true :=
        bareEqual_trans _ _ _ (bareEqual_symm _ _ hb1) hbi
      have hcongr := getExistingBitId_congr bm c1 c2 (parseStr_eq_of_bareEqual c1 c2 hp)
      rw [hf1, hf2] at hcongr
      exact Option.noConfusion hcongr
  | none =>
    cases hf2 : BitMap.getExistingBitId bm c2 with
    | some i2 =>
      exfalso
      obtain ⟨e2, he2m, he2id, hb2⟩ := getExistingBitId_some bm c2 i2 hf2
      rw [hf1] at hr1
      rw [hf2] at hr2
      simp only [Option.getD_some, Option.getD_none] at hr1 hr2
      have hbi : (BitId.parseStr c1).bareEqual i2 = true := by
        rw [← hr1, ← hr2]
        exact hb
      have hp : (BitId.parseStr c1).bareEqual (BitId.parseStr c2) = true :=
        bareEqual_trans _ _ _ hbi hb2
      have hcongr := getExistingBitId_congr bm c1 c2 (parseStr_eq_of_bareEqual c1 c2 hp)
      rw [hf1, hf2] at hcongr
      exact Option.noConfusion hcongr
    | none =>
      rw [hf1] at hr1
      rw [hf2] at hr2
      simp only [Option.getD_none] at hr1 hr2
      rw [hr1, hr2]
      apply parseStr_eq_of_bareEqual
      rw [← hr1, ← hr2]
      exact hb

lemma countP_le_one_pairwise {α : Type} (key : α → String) :
    ∀ (l : List α), (∀ k, (l.filter (fun c => decide (key c = k))).length ≤ 1) →
      l.Pairwise (fun a b => key a ≠ key b) := by
  intro l
  induction l with
  | nil => exact fun _ => List.Pairwise.nil
  | cons c t ih =>
    intro h
    have hc := h (key c)
    rw [List.filter_cons] at hc
    have hpc : decide (key c = key c) = true := by simp
    rw [if_pos hpc, List.length_cons] at hc
    have h0 : (t.filter (fun x => decide (key x = key c))).length = 0 := by omega
    rw [List.length_eq_zero] at h0
    constructor
    · intro b hb hkb
      have hbmem : b ∈ t.filter (fun x => decide (key x = key c)) :=
        List.mem_filter.mpr ⟨hb, by simp [hkb.symm]⟩
      rw [h0] at hbmem
      simp at hbmem
    · apply ih
      intro k
      have hk := h k
      rw [List.filter_cons] at hk
      by_cases hck : decide (key c = k) = true
      · rw [if_pos hck, List.length_cons] at hk
        omega
      · rw [if_neg hck] at hk
        exact hk

lemma validate_ok_iff (added : List AddedComponent) :
    validateNoDuplicateIds added = .ok () ↔
      ∀ k, (added.filter (fun c => decide (componentIdKey c = k))).length ≤ 1 := by
  simp only [validateNoDuplicateIds]
  constructor
  · intro h k
    split at h
    · rename_i hemp
      rw [List.isEmpty_iff] at hemp
      rw [List.filterMap_eq_nil_iff] at hemp
      by_cases hkmem : k ∈ dedupFirst (added.map componentIdKey)
      · have hk := hemp k hkmem
        split at hk
        · exact Option.noConfusion hk
        · rename_i hlen
          omega
      · by_contra hgt
        push_neg at hgt
        have hne : added.filter (fun c => decide (componentIdKey c = k)) ≠ [] := by
          intro h0
          rw [h0] at hgt
          simp at hgt
        obtain ⟨c0, hc0⟩ := List.exists_mem_of_ne_nil _ hne
        have hm := List.mem_filter.mp hc0
        apply hkmem
        rw [mem_dedupFirst]
        refine List.mem_map.mpr ⟨c0, hm.1, ?_⟩
        simpa using hm.2
    · exact Except.noConfusion h
  · intro h
    have hnil : (dedupFirst (added.map componentIdKey)).filterMap (fun k =>
        if (added.filter (fun c => decide (componentIdKey c = k))).length > 1 then
          some (k, added.filter (fun c => decide (componentIdKey c = k))) else none) = [] := by
      rw [List.filterMap_eq_nil_iff]
      intro k _
      rw [if_neg]
      have := h k
      omega
    rw [hnil]
    rfl

lemma validate_total (added : List AddedComponent) :
    validateNoDuplicateIds added = .ok () ∨
      ∃ d, validateNoDuplicateIds added = .error (.duplicateIds d) := by
  simp only [validateNoDuplicateIds]
  split
  · exact Or.inl rfl
  · exact Or.inr ⟨_, rfl⟩

/-- Claim C1 (amended): for a file of a component being added that is not
auto-generated and falls under the imported condition (the tracking index
owns its path under an imported-origin identity, or the target component
is imported-origin): if the user supplied no explicit identity the add
fails with MissingComponentIdForImportedComponent; if the explicit
identity differs from the file's owner the add fails with
IncorrectIdForImportedComponent naming both identities and the file —
even when the file is an auto-generated placeholder for an unsupported
dependency file, since the source checks the identity before the
placeholder test; when the explicit identity matches the owner, such a
placeholder file is silently dropped. -/
theorem c1_imported_identity_checks (ctx : AddComponents) (bm : BitMap) (w : Warnings)
    (component : AddedComponent) (pre post : List ComponentMapFile) (f : ComponentMapFile)
    (found : Option BitMapEntry)
    (hfound : found = component.componentId.bind (fun cid => BitMap.getComponentIfExist bm cid))
    (hsplit : component.files = pre ++ f :: post)
    (hoff : importedFileCase ctx bm found f = true) :
    (ctx.id = none →
      (∀ g ∈ pre, importedFileCase ctx bm found g = false) →
      addOrUpdateComponentInBitMap ctx bm w component =
        .error (.missingComponentIdForImportedComponent
          ((component.componentId.map BitId.toStringWithoutVersion).getD "undefined"))) ∧
    (∀ u, ctx.id = some u →
      fileOwnerDiffers bm component.componentId f = true →
      (∀ g ∈ pre, ¬(importedFileCase ctx bm found g = true ∧
        fileOwnerDiffers bm component.componentId g = true)) →
      addOrUpdateComponentInBitMap ctx bm w component =
        .error (.incorrectIdForImportedComponent
          (((fileOwner bm f).map BitId.toStringWithoutVersion).getD "undefined")
          u f.relativePath)) ∧
    (∀ u w', ctx.id = some u →
      fileOwnerDiffers bm component.componentId f = false →
      isGeneratedForUnsupportedFiles ctx f.relativePath component.componentId found = true →
      processComponentFile ctx bm component.componentId found w' f = .ok (none, w', false)) := by
  refine ⟨?_, ?_, ?_⟩
  · intro hid hpre
    have herr := fun w' => processFile_missing ctx bm component.componentId found w' f hid hoff
    have hperr := processFiles_error_after_prefix ctx bm component.componentId found f post _
      herr pre
      (fun g hg w' =>
        processFile_ok_of_not_imported ctx bm component.componentId found w' g (hpre g hg)) w
    unfold addOrUpdateComponentInBitMap
    simp only []
    rw [← hfound, hsplit, hperr]
  · intro u hid hdiff hpre
    have herr := fun w' =>
      processFile_incorrect ctx bm component.componentId found w' f u hid hoff hdiff
    have hpreok : ∀ g ∈ pre, ∀ w', ∃ keep w2 d,
        processComponentFile ctx bm component.componentId found w' g = .ok (keep, w2, d) := by
      intro g hg w'
      by_cases hgoff : importedFileCase ctx bm found g = true
      · have hgd : fileOwnerDiffers bm component.componentId g = false := by
          rcases Bool.eq_false_or_eq_true (fileOwnerDiffers bm component.componentId g) with
            h | h
          · exact absurd ⟨hgoff, h⟩ (hpre g hg)
          · exact h
        exact processFile_ok_of_matching_imported ctx bm component.componentId found w' g u
          hid hgd
      · rw [Bool.not_eq_true] at hgoff
        exact processFile_ok_of_not_imported ctx bm component.componentId found w' g hgoff
    have hperr := processFiles_error_after_prefix ctx bm component.componentId found f post _
      herr pre hpreok w
    unfold addOrUpdateComponentInBitMap
    simp only []
    rw [← hfound, hsplit, hperr]
  · intro u w' hid hdiff hgen
    exact processFile_placeholder_dropped ctx bm component.componentId found w' f u hid hoff
      hdiff hgen

/-- Claim C1 witness: adding a file owned by an imported-origin identity
without an explicit id fails with the missing-id error. -/
theorem c1_imported_identity_checks_witness :
    addOrUpdateComponentInBitMap defaultCtx bmC1 [] compC1 =
      .error (.missingComponentIdForImportedComponent
        ((compC1.componentId.map BitId.toStringWithoutVersion).getD "undefined")) :=
  (c1_imported_identity_checks defaultCtx bmC1 [] compC1 [] [] fileBin _ rfl rfl
    (by decide)).1 rfl (by simp)

/-- Claim C1 counterexample: a file that is an auto-generated placeholder
for an unsupported dependency file, owned by an imported identity
different from the supplied explicit identity, still makes the add fail
with IncorrectIdForImportedComponent — it is not silently dropped as the
claim states. -/
theorem c1_counterexample :
    isGeneratedForUnsupportedFiles ctxC1 "dep.bin" compC1.componentId
      (compC1.componentId.bind (fun cid => BitMap.getComponentIfExist bmC1 cid)) = true ∧
    addOrUpdateComponentInBitMap ctxC1 bmC1 [] compC1 =
      .error (.incorrectIdForImportedComponent "xcomp" "ycomp" "dep.bin") := by
  exact ⟨by decide, by decide⟩

/-- Claim C2 (amended): a file owned by a different, non-imported identity
is removed from the new component's file set and its relative path is
appended to the warnings map under the owning identity's key, without
aborting the operation — provided the target component is not
imported-origin and no file of the component falls under the imported
condition (otherwise the imported-identity checks abort the add first). -/
theorem c2_conflicting_files_warned (ctx : AddComponents) (bm : BitMap) (w : Warnings)
    (component : AddedComponent) (found : Option BitMapEntry)
    (hfound : found = component.componentId.bind (fun cid => BitMap.getComponentIfExist bm cid))
    (hall : ∀ g ∈ component.files, importedFileCase ctx bm found g = false)
    (f : ComponentMapFile) (hf : f ∈ component.files)
    (ox : BitId) (hox : fileOwner bm f = some ox)
    (hdiff : fileOwnerDiffers bm component.componentId f = true)
    (hauto : ctx.isAutoGen (pathJoin ctx.consumerPath f.relativePath) = false) :
    ∃ res w2 bm2 ws,
      addOrUpdateComponentInBitMap ctx bm w component = .ok (res, w2, bm2, ws) ∧
      f.relativePath ∈ warningsGet w2 (BitId.toStringFull ox) ∧
      ∀ wr ∈ ws, ¬ f.relativePath ∈ (writeFiles wr).map (fun g => g.relativePath) := by
  obtain ⟨ks, w2, d, hpf⟩ := processFiles_ok_all ctx bm component.componentId found
    component.files hall w
  have hwmem := processFiles_mem_warn ctx bm component.componentId found f ox hox hauto hdiff
    component.files hall hf w ks w2 d hpf
  have hkept := processFiles_kept_not_differ ctx bm component.componentId found
    component.files w ks w2 d hpf
  have hnotin : ¬ f.relativePath ∈ ks.map (fun g => g.relativePath) := by
    intro hmem
    rcases List.mem_map.mp hmem with ⟨g, hgks, hgrel⟩
    have hgd := hkept g hgks
    have hcongr : fileOwnerDiffers bm component.componentId g =
        fileOwnerDiffers bm component.componentId f := by
      unfold fileOwnerDiffers fileOwner BitMap.getComponentIdByPath
      rw [hgrel]
    rw [hcongr, hdiff] at hgd
    exact Bool.noConfusion hgd
  by_cases hks : ks.isEmpty = true
  · refine ⟨none, w2, bm, [], ?_, hwmem, by simp⟩
    unfold addOrUpdateComponentInBitMap
    simp only []
    rw [← hfound, hpf]
    simp only []
    rw [if_pos hks]
  · refine ⟨some (addToBitMap ctx bm ⟨component.componentId, ks, component.mainFile,
        if d then none else component.trackDir⟩).2.2, w2,
      (addToBitMap ctx bm ⟨component.componentId, ks, component.mainFile,
        if d then none else component.trackDir⟩).2.1,
      [(addToBitMap ctx bm ⟨component.componentId, ks, component.mainFile,
        if d then none else component.trackDir⟩).1], ?_, hwmem, ?_⟩
    · unfold addOrUpdateComponentInBitMap
      simp only []
      rw [← hfound, hpf]
      simp only []
      rw [if_neg hks]
    · intro wr hwr
      rw [List.mem_singleton] at hwr
      rw [hwr, writeFiles_addToBitMap]
      simpa using hnotin

/-- Claim C2 witness: a file owned by a different authored identity is
dropped from the added component, recorded as a warning under the owner's
key, and the operation succeeds. -/
theorem c2_conflicting_files_warned_witness :
    ∃ res w2 bm2 ws,
      addOrUpdateComponentInBitMap defaultCtx bmW2 [] compC2 = .ok (res, w2, bm2, ws) ∧
      fileA.relativePath ∈ warningsGet w2 (BitId.toStringFull xId) ∧
      ∀ wr ∈ ws, ¬ fileA.relativePath ∈ (writeFiles wr).map (fun g => g.relativePath) :=
  c2_conflicting_files_warned defaultCtx bmW2 [] compC2 _ rfl (by decide) fileA (by decide)
    xId (by decide) (by decide) rfl

/-- Claim C2 counterexample: a file owned by a different authored
(non-imported) identity, added to a target component that is
imported-origin without an explicit id, aborts the operation with
MissingComponentIdForImportedComponent instead of being reassigned with a
warning — refuting the claim that such conflicts never abort. -/
theorem c2_counterexample :
    addOrUpdateComponentInBitMap defaultCtx bmC2 [] compC2 =
      .error (.missingComponentIdForImportedComponent "ycomp") ∧
    fileOwner bmC2 fileA = some xId ∧
    (BitMap.getComponent bmC2 xId).map (fun e => e.origin) = some Origin.authored ∧
    fileOwnerDiffers bmC2 compC2.componentId fileA = true := by
  exact ⟨by decide, by decide, by decide, by decide⟩

/-- Claim C9: a component whose file set ends up empty after index
reconciliation is silently dropped — `addOrUpdateComponentInBitMap`
issues no write and leaves the index unchanged, and every write the
invocation does issue carries a non-empty file set, with exactly one
`addedComponents` entry per write. -/
theorem c9_empty_components_never_persisted :
    (∀ (ctx : AddComponents) (bm : BitMap) (w : Warnings) (component : AddedComponent)
      (res : Option AddResult) (w2 : Warnings) (bm2 : BitMap) (ws : List BitMapWrite),
      addOrUpdateComponentInBitMap ctx bm w component = .ok (res, w2, bm2, ws) →
      ((res = none → ws = [] ∧ bm2 = bm) ∧ ∀ wr ∈ ws, writeFiles wr ≠ [])) ∧
    (∀ (ctx : AddComponents) (bm : BitMap) (w : Warnings) (stats : List (String × Bool))
      (out : AddOutcome),
      addFromStats ctx bm w stats = .ok out →
      ((∀ wr ∈ out.writes, writeFiles wr ≠ []) ∧
       out.writes.length = out.addedComponents.length)) := by
  constructor
  · intro ctx bm w component res w2 bm2 ws h
    rcases addOrUpdate_shape ctx bm w component res w2 bm2 ws h with
      ⟨hres, hws, hbm⟩ | ⟨r, wr, hres, hws, hnf⟩
    · exact ⟨fun _ => ⟨hws, hbm⟩, by rw [hws]; simp⟩
    · refine ⟨fun hn => absurd hn (by rw [hres]; simp), ?_⟩
      intro wr2 hwr2
      rw [hws, List.mem_singleton] at hwr2
      rw [hwr2]
      exact hnf
  · exact fun ctx bm w stats out h => addFromStats_writes ctx bm w stats out h

/-- Claim C9 witness: a single-file invocation produces one write carrying
a non-empty file set and exactly one result entry. -/
theorem c9_empty_components_never_persisted_witness :
    (∀ wr ∈ outW9.writes, writeFiles wr ≠ []) ∧
    outW9.writes.length = outW9.addedComponents.length :=
  c9_empty_components_never_persisted.2 defaultCtx [] [] statsW9 outW9 (by decide)

/-- Claim C4 (amended): exclusion correctness holds at the resolve stage —
after `addOneComponent` applies the exclusions (whenever exclude patterns
are present), no path of the resolved excluded file list appears in the
resolved component's file set, and a component whose normalized main file
is among the resolved excluded paths has its whole file set emptied by
`removeExcludedFiles`.  The claim's stronger reading — that no excluded
path appears in the *returned* `addedComponents` file set — is false: the
returned entry reports the merged tracking-index record, which can
reintroduce an excluded path the index already recorded
(`c4_counterexample`). -/
theorem c4_exclusion_correctness :
    (∀ (excluded : List String) (c : AddedComponent) (m : String),
      c.mainFile = some m → pathNormalizeToLinux m ∈ excluded →
      (removeExcludedOne excluded c).files = []) ∧
    (∀ (ctx : AddComponents) (bm : BitMap) (stats : List (String × Bool))
      (fid : Option BitId) (comps0 : List AddedComponent) (c : AddedComponent),
      ctx.exclude ≠ [] →
      addOneComponentParts ctx bm stats = .ok (fid, comps0) →
      addOneComponent ctx bm stats = .ok c →
      ∀ fl ∈ c.files, ¬ fl.relativePath ∈ resolvedExcludedOf ctx comps0) := by
  constructor
  · exact fun excluded c m hm hmem => removeExcludedOne_main_excluded excluded c m hm hmem
  · intro ctx bm stats fid comps0 c hexc hparts hcomp fl hfl hmem
    have hni : ctx.exclude.isEmpty = false := by
      cases hE : ctx.exclude with
      | nil => exact absurd hE hexc
      | cons a l => rfl
    unfold addOneComponent at hcomp
    rw [hparts] at hcomp
    simp only [hni, Bool.false_eq_true, if_false] at hcomp
    split at hcomp
    · cases hcomp
      simp at hfl
    · rename_i c0 heq
      cases hcomp
      have hc0 : c ∈ (removeExcludedFilesPure (resolvedExcludedOf ctx comps0) comps0).filter
          (fun x => !x.files.isEmpty) := by
        rw [heq]; simp
      exact mem_filtered_comps_not_excluded _ _ c hc0 fl hfl hmem
    · rename_i c0 c1 rest heq
      cases hcomp
      simp only [List.mem_map] at hfl
      rcases hfl with ⟨kg, hkg, hflval⟩
      simp only [groupByRelativePath, List.mem_map] at hkg
      rcases hkg with ⟨k, hk, hkgval⟩
      have hrel : fl.relativePath = k := by
        rw [← hflval, ← hkgval]
        simp [mergeFileGroup]
      rw [mem_dedupFirst] at hk
      rcases List.mem_map.mp hk with ⟨f0, hf0, hf0rel⟩
      rcases List.mem_flatMap.mp hf0 with ⟨comp, hcompmem, hf0mem⟩
      have := mem_filtered_comps_not_excluded _ _ comp hcompmem f0 hf0mem
      rw [hf0rel, ← hrel] at this
      exact this hmem

/-- Claim C4 witness: with exclude pattern `x.js`, the surviving file
`y.js` is not among the resolved excluded paths of the invocation. -/
theorem c4_exclusion_correctness_witness :
    ¬ (("y.js" : String) ∈ resolvedExcludedOf ctxW4 comps0W4) := by
  have h := c4_exclusion_correctness.2 ctxW4 [] statsW4
    (some { scope := none, box := some "", name := "y", version := none }) comps0W4 compW4
    (by decide) (by decide) (by decide)
    { relativePath := "y.js", test := false, name := "y.js" } (by decide)
  exact h

/-- Claim C4 counterexample: with exclude pattern `b.js`, one added path
`a.js`, and a tracking index already recording `b.js` under the identity
`a.js` derives, the resolve stage correctly keeps the excluded `b.js` out
of the resolved files, yet the add succeeds and the returned component's
file set contains the excluded path — reintroduced by the index merge of
`addToBitMap`. -/
theorem c4_counterexample :
    resolvedExcludedOf ctxC4 [compC4res] = ["b.js"] ∧
    addOneComponent ctxC4 bmC4 statsC4 = .ok compC4res ∧
    compC4res.files.map (fun f => f.relativePath) = ["a.js"] ∧
    addFromStats ctxC4 bmC4 [] statsC4 = .ok outC4 ∧
    outC4.addedComponents.map (fun r => r.files.map (fun f => f.relativePath)) =
      [["a.js", "b.js"]] := by
  exact ⟨by decide, by decide, by decide, by decide, by decide⟩

lemma addOnePath_fixed_id (ctx : AddComponents) (bm : BitMap) (i : BitId) (n : Nat)
    (p : String × Bool) (fid2 : Option BitId) (c : AddedComponent)
    (h : addOnePath ctx bm (some i) n p = .ok (fid2, c)) :
    fid2 = some i ∧ c.componentId = some i := by
  unfold addOnePath at h
  repeat' split at h
  all_goals try simp_all
  all_goals repeat' split at h
  all_goals first
    | exact Except.noConfusion h
    | (injection h with h2
       injection h2 with h3 h4
       subst h4
       simp_all)

lemma addPathsLoop_fixed_id (ctx : AddComponents) (bm : BitMap) (i : BitId) (n : Nat) :
    ∀ (l : List (String × Bool)) (fid3 : Option BitId) (cs : List AddedComponent),
      addPathsLoop ctx bm n (some i) l = .ok (fid3, cs) →
      fid3 = some i ∧ ∀ c ∈ cs, c.componentId = some i := by
  intro l
  induction l with
  | nil =>
    intro fid3 cs h
    simp only [addPathsLoop, Except.ok.injEq, Prod.mk.injEq] at h
    refine ⟨h.1.symm, ?_⟩
    rw [← h.2]
    simp
  | cons p rest ih =>
    intro fid3 cs h
    rw [addPathsLoop] at h
    split at h
    · exact absurd h (by simp)
    · rename_i fid2a ca hone
      obtain ⟨hfid2, hcid⟩ := addOnePath_fixed_id ctx bm i n p fid2a ca hone
      rw [hfid2] at h
      split at h
      · exact absurd h (by simp)
      · rename_i fid3a csa hloop
        obtain ⟨hfid3, hall⟩ := ih fid3a csa hloop
        simp only [Except.ok.injEq, Prod.mk.injEq] at h
        refine ⟨h.1 ▸ hfid3, ?_⟩
        intro c hc
        rw [← h.2] at hc
        rcases List.mem_cons.mp hc with rfl | hc
        · exact hcid
        · exact hall c hc

lemma comps1_fixed_id (ctx : AddComponents) (i : BitId) (comps0 : List AddedComponent)
    (hall : ∀ c ∈ comps0, c.componentId = some i) :
    ∀ c ∈ (if ctx.exclude.isEmpty then comps0
        else removeExcludedFilesPure (resolvedExcludedOf ctx comps0) comps0),
      c.componentId = some i := by
  intro c hc
  split at hc
  · exact hall c hc
  · rcases List.mem_map.mp hc with ⟨orig, horig, rfl⟩
    simp only [removeExcludedOne]
    split <;> exact hall orig horig

lemma exceptMapList_length {α β : Type} (f : α → Except AddError β) :
    ∀ (l : List α) (ys : List β), exceptMapList f l = .ok ys → ys.length = l.length := by
  intro l
  induction l with
  | nil =>
    intro ys h
    simp only [exceptMapList, Except.ok.injEq] at h
    rw [← h]
    rfl
  | cons x xs ih =>
    intro ys h
    rw [exceptMapList] at h
    split at h
    · exact absurd h (by simp)
    · rename_i y hy
      split at h
      · exact absurd h (by simp)
      · rename_i ys0 hys0
        simp only [Except.ok.injEq] at h
        rw [← h]
        simp [ih ys0 hys0]

lemma exceptMapList_mem {α β : Type} (f : α → Except AddError β) :
    ∀ (l : List α) (ys : List β), exceptMapList f l = .ok ys →
      ∀ y ∈ ys, ∃ x ∈ l, f x = .ok y := by
  intro l
  induction l with
  | nil =>
    intro ys h
    simp only [exceptMapList, Except.ok.injEq] at h
    rw [← h]
    simp
  | cons x xs ih =>
    intro ys h
    rw [exceptMapList] at h
    split at h
    · exact absurd h (by simp)
    · rename_i y hy
      split at h
      · exact absurd h (by simp)
      · rename_i ys0 hys0
        simp only [Except.ok.injEq] at h
        intro z hz
        rw [← h] at hz
        rcases List.mem_cons.mp hz with rfl | hz
        · exact ⟨x, List.mem_cons_self x xs, hy⟩
        · rcases ih ys0 hys0 z hz with ⟨x0, hx0, hfx0⟩
          exact ⟨x0, List.mem_cons_of_mem x hx0, hfx0⟩

lemma addOnePath_none_resolved (ctx : AddComponents) (bm : BitMap) (n : Nat)
    (p : String × Bool) (fid : Option BitId) (c0 : AddedComponent)
    (h : addOnePath ctx bm none n p = .ok (fid, c0)) :
    ∃ cand r, fid = some r ∧ c0.componentId = some r ∧
      getIdAccordingToExistingComponent ctx bm cand = .ok r := by
  unfold addOnePath at h
  split at h
  · simp only [] at h
    split at h
    · exact Except.noConfusion h
    · split at h
      · exact Except.noConfusion h
      · split at h
        · exact Except.noConfusion h
        · cases hd : deriveDirId ctx bm p.1 with
          | error e =>
            rw [hd] at h
            simp at h
          | ok r =>
            rw [hd] at h
            simp only [Except.ok.injEq, Prod.mk.injEq] at h
            obtain ⟨hfid, hc⟩ := h
            unfold deriveDirId at hd
            refine ⟨_, r, hfid.symm, ?_, hd⟩
            rw [← hc]
  · dsimp only [] at h
    cases hd : deriveFileId ctx bm p.1 with
    | error e =>
      rw [hd] at h
      dsimp only [] at h
      exact Except.noConfusion h
    | ok r =>
      rw [hd] at h
      dsimp only [] at h
      split at h
      · exact Except.noConfusion h
      · split at h
        · exact Except.noConfusion h
        · simp only [Except.ok.injEq, Prod.mk.injEq] at h
          obtain ⟨hfid, hc⟩ := h
          unfold deriveFileId at hd
          refine ⟨_, r, hfid.symm, ?_, hd⟩
          rw [← hc]

lemma addPathsLoop_singleton (ctx : AddComponents) (bm : BitMap) (n : Nat)
    (fid0 : Option BitId) (kv : String × Bool) :
    addPathsLoop ctx bm n fid0 [kv] =
      match addOnePath ctx bm fid0 n kv with
      | .error e => .error e
      | .ok (fid2, c) => .ok (fid2, [c]) := by
  rw [addPathsLoop]
  cases addOnePath ctx bm fid0 n kv with
  | error e => rfl
  | ok pr =>
    obtain ⟨fid2, c⟩ := pr
    rfl

lemma addOneComponent_single_resolved (ctx : AddComponents) (bm : BitMap)
    (kv : String × Bool) (c : AddedComponent) (hid : ctx.id = none)
    (h : addOneComponent ctx bm [kv] = .ok c) :
    ∃ cand r, c.componentId = some r ∧
      getIdAccordingToExistingComponent ctx bm cand = .ok r := by
  unfold addOneComponent at h
  have hparts : addOneComponentParts ctx bm [kv] =
      addPathsLoop ctx bm 1 none [kv] := by
    unfold addOneComponentParts
    rw [hid]
    rfl
  rw [hparts, addPathsLoop_singleton] at h
  cases hone : addOnePath ctx bm none 1 kv with
  | error e =>
    rw [hone] at h
    simp at h
  | ok pr =>
    obtain ⟨fid2, c0⟩ := pr
    rw [hone] at h
    obtain ⟨cand, r, hfid, hc0id, hget⟩ :=
      addOnePath_none_resolved ctx bm 1 kv fid2 c0 hone
    have hall : ∀ x ∈ (if ctx.exclude.isEmpty then [c0]
        else removeExcludedFilesPure (resolvedExcludedOf ctx [c0]) [c0]),
        x.componentId = some r := by
      refine comps1_fixed_id ctx r [c0] ?_
      intro x hx
      rcases List.mem_singleton.mp hx with rfl
      exact hc0id
    simp only [] at h
    split at h
    · rename_i heq
      simp only [Except.ok.injEq] at h
      rw [← h]
      exact ⟨cand, r, hfid, hget⟩
    · rename_i c1 heq
      simp only [Except.ok.injEq] at h
      refine ⟨cand, r, ?_, hget⟩
      rw [← h]
      refine hall c1 ?_
      have hm : c1 ∈ List.filter (fun x => !x.files.isEmpty)
          (if ctx.exclude.isEmpty = true then [c0]
           else removeExcludedFilesPure (resolvedExcludedOf ctx [c0]) [c0]) := by
        rw [heq]
        simp
      exact (List.mem_filter.mp hm).1
    · rename_i c1 c2 rest heq
      simp only [Except.ok.injEq] at h
      rw [← h]
      exact ⟨cand, r, hfid, hget⟩

lemma validate_ok_pairwise_bare (ctx : AddComponents) (bm : BitMap)
    (added : List AddedComponent)
    (hresolved : ∀ c ∈ added, ∃ cand r, c.componentId = some r ∧
      getIdAccordingToExistingComponent ctx bm cand = .ok r)
    (hok : validateNoDuplicateIds added = .ok ()) :
    added.Pairwise (fun a b => ¬ bareEqualComponents a b) := by
  have hcount := (validate_ok_iff added).mp hok
  have hkey := countP_le_one_pairwise componentIdKey added hcount
  refine hkey.imp_of_mem ?_
  intro a b ha hb hne hbare
  obtain ⟨x, y, hax, hby, hxy⟩ := hbare
  obtain ⟨ca, ra, hara, hga⟩ := hresolved a ha
  obtain ⟨cb, rb, hbrb, hgb⟩ := hresolved b hb
  rw [hax] at hara
  rw [hby] at hbrb
  injection hara with hxa
  injection hbrb with hyb
  have hbb : ra.bareEqual rb = true := by
    rw [← hxa, ← hyb]
    exact hxy
  have hreq : ra = rb := resolvedId_bare_inj ctx ctx bm ca cb ra rb hga hgb hbb
  apply hne
  simp only [componentIdKey, hax, hby, Option.map_some', Option.getD_some]
  rw [hxa, hyb, hreq]

lemma validate_error_groups (added : List AddedComponent)
    (d : List (String × List AddedComponent))
    (h : validateNoDuplicateIds added = .error (.duplicateIds d)) :
    d ≠ [] ∧
    (∀ kg ∈ d, 1 < kg.2.length ∧
      kg.2 = added.filter (fun c => decide (componentIdKey c = kg.1))) ∧
    (∀ k, 1 < (added.filter (fun c => decide (componentIdKey c = k))).length →
      (k, added.filter (fun c => decide (componentIdKey c = k))) ∈ d) := by
  simp only [validateNoDuplicateIds] at h
  split at h
  · exact Except.noConfusion h
  · rename_i hne
    injection h with h2
    injection h2 with h3
    subst h3
    refine ⟨?_, ?_, ?_⟩
    · intro h0
      exact hne (by rw [h0]; rfl)
    · intro kg hkg
      rcases List.mem_filterMap.mp hkg with ⟨k, hk, hsome⟩
      split at hsome
      · rename_i hgt
        injection hsome with h4
        rw [← h4]
        exact ⟨hgt, rfl⟩
      · exact Option.noConfusion hsome
    · intro k hk1
      refine List.mem_filterMap.mpr ⟨k, ?_, ?_⟩
      · rw [mem_dedupFirst]
        have hne2 : added.filter (fun c => decide (componentIdKey c = k)) ≠ [] := by
          intro h0
          rw [h0] at hk1
          simp at hk1
        obtain ⟨c0, hc0⟩ := List.exists_mem_of_ne_nil _ hne2
        have hm := List.mem_filter.mp hc0
        refine List.mem_map.mpr ⟨c0, hm.1, ?_⟩
        simpa using hm.2
      · rw [if_pos hk1]

/-- Claim C5: the engine operates in multi-component mode exactly when more
than one top-level path resolved and no explicit identity was supplied
(one `addOneComponent` call per remaining path, hence one resolved
component per path); otherwise it operates in single-component mode, where
all paths merge into one component that carries the reconciliation of the
explicit id when one was given. -/
theorem c5_mode_classification :
    (∀ (stats : List (String × Bool)) (id : Option String),
      isMultipleComponents stats id = true ↔ (stats.length > 1 ∧ id = none)) ∧
    (∀ (ctx : AddComponents) (bm : BitMap) (stats : List (String × Bool))
      (added : List AddedComponent),
      resolveMultiple ctx bm stats = .ok added →
      added.length = (multiStatsAfterTests ctx stats).length) ∧
    (∀ (ctx : AddComponents) (bm : BitMap) (stats : List (String × Bool))
      (u : String) (r : BitId) (c : AddedComponent),
      ctx.id = some u →
      getIdAccordingToExistingComponent ctx bm u = .ok r →
      addOneComponent ctx bm stats = .ok c →
      c.componentId = some r) := by
  refine ⟨?_, ?_, ?_⟩
  · intro stats id
    simp [isMultipleComponents, Option.isNone_iff_eq_none]
  · intro ctx bm stats added hres
    exact exceptMapList_length _ _ added hres
  · intro ctx bm stats u r c hid hgetid hcomp
    have hparts : addOneComponentParts ctx bm stats =
        addPathsLoop ctx bm stats.length (some r) stats := by
      unfold addOneComponentParts
      rw [hid]
      simp only []
      rw [hgetid]
    unfold addOneComponent at hcomp
    rw [hparts] at hcomp
    generalize hpl : addPathsLoop ctx bm stats.length (some r) stats = plres at hcomp
    cases plres with
    | error e => exact absurd hcomp (by simp)
    | ok pair =>
      obtain ⟨hfid, hall⟩ := addPathsLoop_fixed_id ctx bm r stats.length stats pair.1 pair.2
        (by rw [hpl])
      have hall1 := comps1_fixed_id ctx r pair.2 hall
      simp only at hcomp
      split at hcomp
      · rename_i heq
        simp only [Except.ok.injEq] at hcomp
        rw [← hcomp]
        exact hfid
      · rename_i c0 heq
        simp only [Except.ok.injEq] at hcomp
        rw [← hcomp]
        refine hall1 c0 ?_
        have hm : c0 ∈ List.filter (fun x => !x.files.isEmpty)
            (if ctx.exclude.isEmpty = true then pair.2
             else removeExcludedFilesPure (resolvedExcludedOf ctx pair.2) pair.2) := by
          rw [heq]
          simp
        exact (List.mem_filter.mp hm).1
      · rename_i c0 c1 rest heq
        simp only [Except.ok.injEq] at hcomp
        rw [← hcomp]
        exact hfid

/-- Claim C5 witness: two paths without an id classify as multi-component
mode, and a single-file add with explicit id `mycomp` resolves to a
component carrying exactly that identity. -/
theorem c5_mode_classification_witness :
    isMultipleComponents [("a", true), ("b", true)] none = true ∧
    compW5.componentId = some idW5 := by
  constructor
  · exact (c5_mode_classification.1 [("a", true), ("b", true)] none).mpr ⟨by decide, rfl⟩
  · exact c5_mode_classification.2.2 ctxW5 [] statsW5 "mycomp" idW5 compW5 rfl
      (by decide) (by decide)

/-- Claim C7 (amended): when the candidate identity string encodes a
version, unless an existing identity is found, has a version, and that
version equals the user-specified version exactly, reconciliation fails
with the version-should-be-removed error — provided the existing identity
is not a nested dependency (that case fails earlier with the
namespace-collision error). -/
theorem c7_version_must_not_be_specified (ctx : AddComponents) (bm : BitMap)
    (currentId : String)
    (hv : containsVersionDelimiter currentId = true)
    (hnn : ((BitMap.getExistingBitId bm currentId).bind
        (fun e => BitMap.getComponent bm e)).map (fun e => e.origin) ≠ some Origin.nested)
    (hbad : BitMap.getExistingBitId bm currentId = none ∨
      (∃ e, BitMap.getExistingBitId bm currentId = some e ∧
        (e.version = none ∨ e.version ≠ getVersionOnlyFromOptString ctx.id))) :
    getIdAccordingToExistingComponent ctx bm currentId =
      .error (.versionShouldBeRemoved ctx.id) := by
  unfold getIdAccordingToExistingComponent
  rcases hbad with hnone | ⟨e, he, hver⟩
  · simp [hnone, hv]
  · have hnest : ∀ x, BitMap.getComponent bm e = some x → ¬x.origin = Origin.nested := by
      intro x hx horig
      apply hnn
      rw [he]
      simp [hx, horig]
    rcases hver with hv0 | hv1
    · simp [he, hv, BitId.hasVersion, hv0]
      exact hnest
    · by_cases h0 : e.version = none
      · simp [he, hv, BitId.hasVersion, h0]
        exact hnest
      · have h1 : e.version.isSome = true := Option.ne_none_iff_isSome.mp h0
        simp [he, hv, BitId.hasVersion, h1, hv1]
        exact hnest

/-- Claim C7 witness: a fresh candidate carrying a version suffix is
rejected with the version-should-be-removed error. -/
theorem c7_version_must_not_be_specified_witness :
    getIdAccordingToExistingComponent ctxW7 [] "c@1" =
      .error (.versionShouldBeRemoved (some "c@1")) :=
  c7_version_must_not_be_specified ctxW7 [] "c@1" (by decide) (by decide) (Or.inl rfl)

/-- Claim C7 counterexample: a versioned candidate whose bare-matching
existing identity is a nested dependency (and has no version, so the
claim's "unless" condition fails) is rejected with the namespace-collision
general error, not with the version error the claim names. -/
theorem c7_counterexample :
    getIdAccordingToExistingComponent ctxC7 bmC7 "ns/comp@1" =
      .error (.generalError "ns/comp") ∧
    containsVersionDelimiter "ns/comp@1" = true ∧
    BitMap.getExistingBitId bmC7 "ns/comp@1" = some nestedId ∧
    nestedId.version = none := by
  refine ⟨by decide, by decide, by decide, rfl⟩


/-- Claim C8 (amended): when a main file is specified and its resolved
consumer-relative path exists on disk, it must not be ignored (otherwise
`ExcludedMainFile`), must not be a directory (otherwise `MainFileIsDir`),
and ends up in the component's file set; a main file that does not exist
on disk is returned unchanged without these checks (so the claim's
existence requirement does not hold of the code). -/
theorem c8_main_file_validity (ctx : AddComponents) (m : String)
    (files1 : List ComponentMapFile)
    (hex : ctx.existsFs (ctx.toAbsolutePath (ctx.relToConsumer m)) = true) :
    (ctx.gitIgnore (ctx.relToConsumer m) = true →
      mainFileFinalize ctx (some m) files1 =
        .error (.excludedMainFile (ctx.relToConsumer m))) ∧
    (ctx.gitIgnore (ctx.relToConsumer m) = false →
      ctx.isDirFs (ctx.toAbsolutePath (ctx.relToConsumer m)) = true →
      mainFileFinalize ctx (some m) files1 =
        .error (.mainFileIsDir (ctx.toAbsolutePath (ctx.relToConsumer m)))) ∧
    (ctx.gitIgnore (ctx.relToConsumer m) = false →
      ctx.isDirFs (ctx.toAbsolutePath (ctx.relToConsumer m)) = false →
      ∃ files2,
        mainFileFinalize ctx (some m) files1 = .ok (some (ctx.relToConsumer m), files2) ∧
        pathNormalizeToLinux (ctx.relToConsumer m) ∈
          files2.map (fun f => f.relativePath)) := by
  refine ⟨?_, ?_, ?_⟩
  · intro hig
    simp [mainFileFinalize, hex, hig]
  · intro hig hdir
    simp [mainFileFinalize, hex, hig, hdir]
  · intro hig hdir
    by_cases hfind : (files1.find? (fun f =>
        decide (f.relativePath = pathNormalizeToLinux (ctx.relToConsumer m)))).isSome
    · refine ⟨files1, ?_, ?_⟩
      · simp [mainFileFinalize, hex, hig, hdir, hfind]
      · rcases Option.isSome_iff_exists.mp hfind with ⟨f, hf⟩
        have hmem := List.mem_of_find?_eq_some hf
        have hprop := List.find?_some hf
        have heq : f.relativePath = pathNormalizeToLinux (ctx.relToConsumer m) := by
          simpa using hprop
        exact heq ▸ List.mem_map_of_mem (fun f => f.relativePath) hmem
    · have hf2 : (files1.find? (fun f =>
          decide (f.relativePath = pathNormalizeToLinux (ctx.relToConsumer m)))).isSome
          = false := by
        simp only [Bool.not_eq_true] at hfind
        exact hfind
      refine ⟨files1 ++
        [⟨pathNormalizeToLinux (ctx.relToConsumer m), false, basename (ctx.relToConsumer m)⟩],
        ?_, ?_⟩
      · simp [mainFileFinalize, hex, hig, hdir, hf2]
      · simp

/-- Claim C8 witness: an existing, non-ignored, non-directory main file is
accepted and appended to the file set. -/
theorem c8_main_file_validity_witness :
    ∃ files2,
      mainFileFinalize defaultCtx (some "m.js") [] =
        .ok (some (defaultCtx.relToConsumer "m.js"), files2) ∧
      pathNormalizeToLinux (defaultCtx.relToConsumer "m.js") ∈
        files2.map (fun f => f.relativePath) :=
  (c8_main_file_validity defaultCtx "m.js" [] rfl).2.2 rfl rfl

/-- Claim C8 counterexample: a specified main file that does not exist on
disk is resolved and returned without error, without existing and without
appearing in the component's file set — refuting the claim's requirement
that a resolved main file exists and appears in the file set. -/
theorem c8_counterexample :
    addMainFileToFiles ctxC8 filesC8 = .ok (some "mainfile.js", filesC8) ∧
    ctxC8.existsFs (ctxC8.toAbsolutePath (ctxC8.relToConsumer "mainfile.js")) = false ∧
    ¬("mainfile.js" ∈ filesC8.map (fun f => f.relativePath)) := by
  refine ⟨?_, rfl, by decide⟩
  rfl

/-- Claim C3: in a multi-component invocation (no explicit identity), if
the per-path resolved components are not pairwise distinct under bare
identity equality, the whole batch fails with a `DuplicateIds` error whose
non-empty payload enumerates exactly the offending groups — no outcome,
hence no index write, is produced; consequently, whenever the flow
succeeds, no two entries of the resolved batch are bare-equal. -/
theorem c3_duplicate_identity_detection (ctx : AddComponents) (bm : BitMap) (w : Warnings)
    (stats : List (String × Bool)) (added : List AddedComponent)
    (hid : ctx.id = none)
    (hres : resolveMultiple ctx bm stats = .ok added) :
    ((¬ added.Pairwise (fun a b => ¬ bareEqualComponents a b)) →
      ∃ d, addMultipleFlow ctx bm w stats = .error (.duplicateIds d) ∧
        d ≠ [] ∧
        (∀ kg ∈ d, 1 < kg.2.length ∧
          kg.2 = added.filter (fun c => decide (componentIdKey c = kg.1))) ∧
        (∀ k, 1 < (added.filter (fun c => decide (componentIdKey c = k))).length →
          (k, added.filter (fun c => decide (componentIdKey c = k))) ∈ d)) ∧
    (∀ out, addMultipleFlow ctx bm w stats = .ok out →
      added.Pairwise (fun a b => ¬ bareEqualComponents a b)) := by
  have hresolved : ∀ c ∈ added, ∃ cand r, c.componentId = some r ∧
      getIdAccordingToExistingComponent ctx bm cand = .ok r := by
    intro c hc
    obtain ⟨kv, hkv, hone⟩ := exceptMapList_mem _ _ _ hres c hc
    exact addOneComponent_single_resolved ctx bm kv c hid hone
  constructor
  · intro hnp
    rcases validate_total added with hok | ⟨d, herr⟩
    · exact absurd (validate_ok_pairwise_bare ctx bm added hresolved hok) hnp
    · refine ⟨d, ?_, validate_error_groups added d herr⟩
      unfold addMultipleFlow
      rw [hres]
      dsimp only []
      rw [herr]
  · intro out hout
    rcases validate_total added with hok | ⟨d, herr⟩
    · exact validate_ok_pairwise_bare ctx bm added hresolved hok
    · unfold addMultipleFlow at hout
      rw [hres] at hout
      dsimp only [] at hout
      rw [herr] at hout
      dsimp only [] at hout
      exact Except.noConfusion hout

/-- Claim C3 witness: the two-path batch `statsW3` resolves to two
components with distinct bare identities, the flow succeeds, and the
resolved batch is pairwise non-bare-equal. -/
theorem c3_duplicate_identity_detection_witness :
    ctxW3.id = none ∧
    resolveMultiple ctxW3 [] statsW3 = .ok addedW3 ∧
    addMultipleFlow ctxW3 [] [] statsW3 = .ok outW3 ∧
    addedW3.Pairwise (fun a b => ¬ bareEqualComponents a b) :=
  ⟨rfl, by decide, by decide,
    (c3_duplicate_identity_detection ctxW3 [] [] statsW3 addedW3 rfl (by decide)).2
      outW3 (by decide)⟩

end BitAdd
